import Mathlib

/-!
Verification of the transactional ledger core (`src/engine/Transaction.c`).

The C sources are shallowly embedded below:

* C `double` amounts are modelled as exact rationals (`Rat`);
* C strings are modelled as `List Char` (`Str`); the `NULL` pointer case is
  modelled as `Option Str` where a function can receive `NULL`;
* the heap is modelled by two arenas (`List (Option Split)`,
  `List (Option Transaction)`) where `none` marks a freed cell, plus a fixed
  account table; pointers become arena indices;
* `assert` aborts, NULL-pointer dereferences and reads of unallocated memory
  are modelled as `Except` errors (`Err`);
* functions that only `printf` and continue (for instance `CHECK_OPEN`) are
  modelled as proceeding, exactly like the C does;
* the `open` bit-field of a transaction uses only the two bits `BEGIN_EDIT`
  and `DEFER_REBALANCE`; it is embedded as the two booleans `open_begin`
  and `open_defer`, every C bit operation is translated on these two bits;
* the collaborating `Account`/`TransLog` modules are not part of the given
  sources; the few entry points this file needs are modelled from the spec
  and marked `Modelled from the spec:` in their doc comments.
-/

/-! ### Strings and comparisons -/

/-- C strings (`char *` contents) are embedded as lists of characters. -/
abbrev Str := List Char

/-- Three-way character comparison, the byte comparison done by `strcmp`. -/
def charCmp (a b : Char) : Ordering :=
  if a < b then .lt else if a = b then .eq else .gt

/-- Three-way string comparison: the embedding of `strcmp`. -/
def strCmp : Str → Str → Ordering
  | [], [] => .eq
  | [], _ :: _ => .lt
  | _ :: _, [] => .gt
  | a :: as, b :: bs =>
    match charCmp a b with
    | .eq => strCmp as bs
    | o => o

/-- Modelled from the spec: `safe_strcmp` of `util` (not among the given
sources) is the NULL-safe string comparison, an absent string sorting before
a present one, otherwise `strcmp`. -/
def safe_strcmp : Option Str → Option Str → Ordering
  | none, none => .eq
  | none, some _ => .lt
  | some _, none => .gt
  | some a, some b => strCmp a b

theorem charCmp_eq_iff (a b : Char) : charCmp a b = .eq ↔ a = b := by
  unfold charCmp
  split_ifs with h1 h2 <;> simp_all [ne_of_lt]

theorem charCmp_lt_iff (a b : Char) : charCmp a b = .lt ↔ a < b := by
  unfold charCmp
  split_ifs <;> simp_all

theorem charCmp_swap (a b : Char) : charCmp b a = (charCmp a b).swap := by
  unfold charCmp
  rcases lt_trichotomy a b with h | h | h
  · simp [h, not_lt_of_gt h, ne_of_gt h, Ordering.swap]
  · simp [h, lt_irrefl, Ordering.swap]
  · simp [h, not_lt_of_gt h, ne_of_lt h, ne_of_gt h, Ordering.swap]

theorem strCmp_eq_iff (s t : Str) : strCmp s t = .eq ↔ s = t := by
  induction s generalizing t with
  | nil => cases t <;> simp [strCmp]
  | cons a as ih =>
    cases t with
    | nil => simp [strCmp]
    | cons b bs =>
      by_cases hab : a = b
      · subst hab
        simp [strCmp, (charCmp_eq_iff a a).mpr rfl, ih]
      · have : charCmp a b ≠ .eq := fun h => hab ((charCmp_eq_iff a b).mp h)
        cases h : charCmp a b <;> simp_all [strCmp]

theorem strCmp_swap (s t : Str) : strCmp t s = (strCmp s t).swap := by
  induction s generalizing t with
  | nil => cases t <;> simp [strCmp, Ordering.swap]
  | cons a as ih =>
    cases t with
    | nil => simp [strCmp, Ordering.swap]
    | cons b bs =>
      have h := charCmp_swap a b
      cases hab : charCmp a b <;> simp_all [strCmp, Ordering.swap]

theorem strCmp_lt_trans {s t u : Str} (h1 : strCmp s t = .lt)
    (h2 : strCmp t u = .lt) : strCmp s u = .lt := by
  induction s generalizing t u with
  | nil =>
    cases t with
    | nil => simp [strCmp] at h1
    | cons b bs => cases u with
      | nil => simp [strCmp] at h2
      | cons c cs => simp [strCmp]
  | cons a as ih =>
    cases t with
    | nil => simp [strCmp] at h1
    | cons b bs =>
      cases u with
      | nil => simp [strCmp] at h2
      | cons c cs =>
        simp only [strCmp] at h1 h2 ⊢
        rcases hab : charCmp a b with _ | _ | _ <;> simp only [hab] at h1
        case lt =>
          have hlt := (charCmp_lt_iff a b).mp hab
          rcases hbc : charCmp b c with _ | _ | _ <;> simp only [hbc] at h2
          case lt =>
            have hlt2 := (charCmp_lt_iff b c).mp hbc
            simp only [(charCmp_lt_iff a c).mpr (lt_trans hlt hlt2)]
          case eq =>
            have hbc' := (charCmp_eq_iff b c).mp hbc; subst hbc'
            simp only [(charCmp_lt_iff a b).mpr hlt]
          case gt => exact absurd h2 (by simp)
        case eq =>
          have hab' := (charCmp_eq_iff a b).mp hab; subst hab'
          rcases hbc : charCmp a c with _ | _ | _ <;> simp only [hbc] at h2 ⊢ <;>
            first
            | rfl
            | exact absurd h2 (by simp)
            | · have hac := (charCmp_eq_iff a c).mp hbc; subst hac
                exact ih h1 h2
        case gt => exact absurd h1 (by simp)

/-- A comparison function that induces a strict weak order: swap-antisymmetry,
transitivity of `lt` and of `eq`, and the mixed transitivity laws. -/
def cmpIsLawful {α : Type} (cmp : α → α → Ordering) : Prop :=
  (∀ a b, cmp b a = (cmp a b).swap) ∧
  (∀ a b c, cmp a b = .lt → cmp b c = .lt → cmp a c = .lt) ∧
  (∀ a b c, cmp a b = .eq → cmp b c = .eq → cmp a c = .eq) ∧
  (∀ a b c, cmp a b = .eq → cmp b c = .lt → cmp a c = .lt) ∧
  (∀ a b c, cmp a b = .lt → cmp b c = .eq → cmp a c = .lt)

theorem lawful_of_eq_iff {α : Type} {cmp : α → α → Ordering}
    (hswap : ∀ a b, cmp b a = (cmp a b).swap)
    (htrans : ∀ a b c, cmp a b = .lt → cmp b c = .lt → cmp a c = .lt)
    (heq : ∀ a b, cmp a b = .eq ↔ a = b) : cmpIsLawful cmp := by
  refine ⟨hswap, htrans, ?_, ?_, ?_⟩
  · intro a b c h1 h2
    rw [(heq a b).mp h1]; exact h2
  · intro a b c h1 h2
    rw [(heq a b).mp h1]; exact h2
  · intro a b c h1 h2
    rw [← (heq b c).mp h2]; exact h1

theorem lawful_then {α : Type} {c1 c2 : α → α → Ordering}
    (h1 : cmpIsLawful c1) (h2 : cmpIsLawful c2) :
    cmpIsLawful (fun a b => (c1 a b).then (c2 a b)) := by
  obtain ⟨s1, lt1, eq1, el1, le1⟩ := h1
  obtain ⟨s2, lt2, eq2, el2, le2⟩ := h2
  refine ⟨?_, ?_, ?_, ?_, ?_⟩
  · intro a b
    simp only []
    rw [s1 a b, s2 a b]
    rcases c1 a b with _ | _ | _ <;> simp [Ordering.then, Ordering.swap]
  · intro a b c hab hbc
    simp only at hab hbc ⊢
    rcases h : c1 a b with _ | _ | _ <;> rw [h] at hab <;>
      rcases h' : c1 b c with _ | _ | _ <;> rw [h'] at hbc <;>
      simp only [Ordering.then] at hab hbc ⊢
    · rw [lt1 a b c h h']
    · rw [le1 a b c h h']
    · exact absurd hbc (by simp)
    · rw [el1 a b c h h']
    · rw [eq1 a b c h h']; exact lt2 a b c hab hbc
    · exact absurd hbc (by simp)
    · exact absurd hab (by simp)
    · exact absurd hab (by simp)
    · exact absurd hab (by simp)
  · intro a b c hab hbc
    simp only at hab hbc ⊢
    rcases h : c1 a b with _ | _ | _ <;> rw [h] at hab <;>
      rcases h' : c1 b c with _ | _ | _ <;> rw [h'] at hbc <;>
      simp only [Ordering.then] at hab hbc ⊢ <;>
      try exact absurd hab (by simp)
    · exact absurd hbc (by simp)
    · rw [eq1 a b c h h']; exact eq2 a b c hab hbc
    · exact absurd hbc (by simp)
  · intro a b c hab hbc
    simp only at hab hbc ⊢
    rcases h : c1 a b with _ | _ | _ <;> rw [h] at hab <;>
      rcases h' : c1 b c with _ | _ | _ <;> rw [h'] at hbc <;>
      simp only [Ordering.then] at hab hbc ⊢ <;>
      try exact absurd hab (by simp)
    · rw [el1 a b c h h']
    · rw [eq1 a b c h h']; exact el2 a b c hab hbc
    · exact absurd hbc (by simp)
  · intro a b c hab hbc
    simp only at hab hbc ⊢
    rcases h : c1 a b with _ | _ | _ <;> rw [h] at hab <;>
      rcases h' : c1 b c with _ | _ | _ <;> rw [h'] at hbc <;>
      simp only [Ordering.then] at hab hbc ⊢
    · rw [lt1 a b c h h']
    · rw [le1 a b c h h']
    · exact absurd hbc (by simp)
    · rw [el1 a b c h h']
    · rw [eq1 a b c h h']; exact le2 a b c hab hbc
    · exact absurd hbc (by simp)
    · exact absurd hab (by simp)
    · exact absurd hab (by simp)
    · exact absurd hab (by simp)

/-- Three-way comparison of machine integers (`<`, `>`, otherwise equal). -/
def intCmp (a b : Int) : Ordering :=
  if a < b then .lt else if b < a then .gt else .eq

theorem intCmp_eq_iff (a b : Int) : intCmp a b = .eq ↔ a = b := by
  unfold intCmp; split_ifs <;> simp_all <;> omega

theorem intCmp_lt_iff (a b : Int) : intCmp a b = .lt ↔ a < b := by
  unfold intCmp; split_ifs <;> simp_all

theorem intCmp_swap (a b : Int) : intCmp b a = (intCmp a b).swap := by
  unfold intCmp
  rcases lt_trichotomy a b with h | h | h
  · simp [h, not_lt_of_gt h, Ordering.swap]
  · simp [h, lt_irrefl, Ordering.swap]
  · simp [h, not_lt_of_gt h, Ordering.swap]

theorem intCmp_lawful : cmpIsLawful intCmp := by
  refine lawful_of_eq_iff intCmp_swap ?_ intCmp_eq_iff
  intro a b c h1 h2
  rw [intCmp_lt_iff] at h1 h2 ⊢
  omega

theorem strCmp_lawful : cmpIsLawful strCmp :=
  lawful_of_eq_iff strCmp_swap (fun _ _ _ => strCmp_lt_trans) strCmp_eq_iff

/-! ### Data model (`TransactionP.h` shapes used by `Transaction.c`) -/

/-- `struct timespec`: seconds and sub-second (nanosecond) parts. -/
structure Timespec where
  tv_sec : Int
  tv_nsec : Int
deriving DecidableEq, Repr

/-- The reconciled flag default `NREC` (header constant; exact character is
immaterial to the engine's logic). -/
def NREC : Char := 'n'

/-- An account, as consumed by this core.  `accDefer` embeds the
`ACC_DEFER_REBALANCE` bit of the account's `open` flags (Modelled from the
spec: the Account collaborator exposes currency code, security code and an
open/defer-rebalance flag).  The `changed` dirty flags are kept outside, in
`State.changed`. -/
structure Account where
  accountName : Str
  currency : Str
  security : Str
  accDefer : Bool
deriving DecidableEq, Repr

/-- One leg of a transaction.  `acc` and `parent` are arena indices standing
for the C pointers; `none` is the NULL pointer.  Amounts are exact rationals
standing for the C doubles. -/
structure Split where
  acc : Option Nat
  parent : Option Nat
  action : Str
  memo : Str
  docref : Str
  reconciled : Char
  damount : Rat
  share_price : Rat
  date_reconciled : Timespec
  balance : Rat
  cleared_balance : Rat
  reconciled_balance : Rat
  share_balance : Rat
  share_cleared_balance : Rat
  share_reconciled_balance : Rat
deriving DecidableEq, Repr

/-- A transaction.  `splits` is the NULL-terminated split array, embedded as
the list of member indices.  The C `open` bit-field only ever carries the two
bits `BEGIN_EDIT` (`open_begin`) and `DEFER_REBALANCE` (`open_defer`). -/
structure Transaction where
  num : Str
  description : Str
  docref : Str
  splits : List Nat
  date_entered : Timespec
  date_posted : Timespec
  open_begin : Bool
  open_defer : Bool
deriving DecidableEq, Repr

/-- Fatal conditions of the embedded code: a failing `assert`, a NULL (or
dangling) pointer dereference, the `assert(0)` of an unresolvable common
currency, a read past the end of the split array, and exhaustion of the
recursion fuel of the rebalancer. -/
inductive Err where
  | assertFail
  | nullDeref
  | contractViolation
  | currencyInconsistency
  | undefinedRead
  | outOfFuel
deriving DecidableEq, Repr

/-- The mutable program state: the split arena, the transaction arena
(`none` = freed cell), the account table (owned by the Account collaborator,
never reallocated by this core), the `force_double_entry` configuration, the
set of accounts marked dirty, and the journal of written log records. -/
structure State where
  sArena : List (Option Split)
  tArena : List (Option Transaction)
  accounts : List Account
  force_double_entry : Bool
  changed : List Nat
  log : List (Nat × Char)
deriving DecidableEq, Repr

/-- Dereference a split pointer (arena index): `none` for freed or
out-of-range cells. -/
def getSplitA (sA : List (Option Split)) (i : Nat) : Option Split :=
  (sA.get? i).getD none

/-- Dereference a transaction pointer. -/
def getTransA (tA : List (Option Transaction)) (i : Nat) : Option Transaction :=
  (tA.get? i).getD none

/-- Dereference an account pointer. -/
def getAccA (accs : List Account) (i : Nat) : Option Account :=
  accs.get? i

def getSplit (st : State) (i : Nat) : Option Split := getSplitA st.sArena i

def getTrans (st : State) (i : Nat) : Option Transaction := getTransA st.tArena i

def getAcc (st : State) (i : Nat) : Option Account := getAccA st.accounts i

/-- Overwrite a live split cell. -/
def setSplit (st : State) (i : Nat) (s : Split) : State :=
  { st with sArena := st.sArena.set i (some s) }

/-- Overwrite a live transaction cell. -/
def setTrans (st : State) (i : Nat) (t : Transaction) : State :=
  { st with tArena := st.tArena.set i (some t) }

/-- Allocate a fresh split cell at the end of the arena (`_malloc`). -/
def allocSplit (st : State) (s : Split) : Nat × State :=
  (st.sArena.length, { st with sArena := st.sArena ++ [some s] })

/-- Allocate a fresh transaction cell (`_malloc`). -/
def allocTrans (st : State) (t : Transaction) : Nat × State :=
  (st.tArena.length, { st with tArena := st.tArena ++ [some t] })

/-- `xaccFreeSplit`: clear the fields and free the cell. -/
def xaccFreeSplit (st : State) (i : Nat) : State :=
  { st with sArena := st.sArena.set i none }

/-- `MARK_SPLIT`: if the split has an account, set that account's changed
flag (the dirty account set of the state). -/
def markSplit (st : State) (s : Split) : State :=
  match s.acc with
  | some aid => { st with changed := aid :: st.changed }
  | none => st

/-- `MARK_SPLIT` applied through a split pointer. -/
def markSplitId (st : State) (sid : Nat) : State :=
  match getSplit st sid with
  | some s => markSplit st s
  | none => st

/-- `MarkChanged`: mark every split of the transaction. -/
def markChanged (st : State) (t : Transaction) : State :=
  t.splits.foldl markSplitId st

/-! ### Construction and destruction of the ledger entities -/

/-- `xaccInitSplit`: the default split (empty strings, zero quantity, unit
share price, no account, no parent). -/
def xaccInitSplit : Split :=
  { acc := none
    parent := none
    action := []
    memo := []
    docref := []
    reconciled := NREC
    damount := 0
    share_price := 1
    date_reconciled := ⟨0, 0⟩
    balance := 0
    cleared_balance := 0
    reconciled_balance := 0
    share_balance := 0
    share_cleared_balance := 0
    share_reconciled_balance := 0 }

/-- `xaccMallocSplit`: allocate and initialize a split, returning the new
pointer and state. -/
def xaccMallocSplit (st : State) : Nat × State :=
  allocSplit st xaccInitSplit

/-- `xaccInitTransaction` / `xaccMallocTransaction`: allocate a transaction
holding one single freshly initialized split (the `splits[0]` source slot),
empty strings, zero dates, and a closed (`open = 0`) edit state. -/
def xaccMallocTransaction (st : State) : Nat × State :=
  let (sid, st1) := xaccMallocSplit st
  let tid := st1.tArena.length
  let tr : Transaction :=
    { num := []
      description := []
      docref := []
      splits := [sid]
      date_entered := ⟨0, 0⟩
      date_posted := ⟨0, 0⟩
      open_begin := false
      open_defer := false }
  let st2 := { st1 with tArena := st1.tArena ++ [some tr] }
  -- the fresh split's parent back-pointer (`split->parent = trans`)
  match getSplit st2 sid with
  | some s => (tid, setSplit st2 sid { s with parent := some tid })
  | none => (tid, st2)

/-- `xaccFreeTransaction`: free every contained split, then the transaction
cell itself. -/
def xaccFreeTransaction (st : State) (tid : Nat) : State :=
  match getTrans st tid with
  | none => st
  | some t =>
    let st1 := t.splits.foldl xaccFreeSplit st
    { st1 with tArena := st1.tArena.set tid none }

/-! ### The Account collaborator (modelled from the spec) -/

/-- Modelled from the spec: `xaccAccountInsertSplit` of the Account
collaborator records the association between account and split; for this
core the observable effect is the split's `acc` back-reference.  A NULL
account argument does nothing. -/
def xaccAccountInsertSplit (st : State) (aid? : Option Nat) (sid : Nat) : State :=
  match aid? with
  | none => st
  | some aid =>
    match getSplit st sid with
    | some s => setSplit st sid { s with acc := some aid }
    | none => st

/-- Modelled from the spec: `xaccAccountRemoveSplit` detaches the split from
the account, clearing the split's `acc` back-reference.  A NULL account
argument does nothing. -/
def xaccAccountRemoveSplit (st : State) (aid? : Option Nat) (sid : Nat) : State :=
  match aid? with
  | none => st
  | some _ =>
    match getSplit st sid with
    | some s => setSplit st sid { s with acc := none }
    | none => st

/-- Modelled from the spec: `xaccAccountRecomputeBalance` only rewrites the
balance caches owned by the Account collaborator; it does not change any
state observed by this core. -/
def xaccAccountRecomputeBalance (st : State) (_aid? : Option Nat) : State := st

/-- Modelled from the spec: `xaccCheckDateOrder` repositions a split inside
its account's date-ordered collection; it does not change any state observed
by this core. -/
def xaccCheckDateOrder (st : State) (_aid? : Option Nat) (_sid : Nat) : State := st

/-- `xaccTransWriteLog`: append a journal record for the transaction with
the given opcode character. -/
def xaccTransWriteLog (st : State) (tid : Nat) (op : Char) : State :=
  { st with log := st.log ++ [(tid, op)] }

/-! ### Canonical ordering (`xaccTransOrder`, `xaccSplitOrder`)

The C comparison functions take pointers-to-pointers and read only the
pointed-to records, so they are embedded at the level of the dereferenced
values; `none` is the NULL transaction/split.  For a split the comparison
also follows the split's `parent` pointer, so its operand is the pair of the
split record together with the record its parent pointer reaches. -/

def xaccTransOrder : Option Transaction → Option Transaction → Ordering
  | some _, none => .lt
  | none, some _ => .gt
  | none, none => .eq
  | some ta, some tb =>
    if ta.date_posted.tv_sec < tb.date_posted.tv_sec then .lt
    else if tb.date_posted.tv_sec < ta.date_posted.tv_sec then .gt
    else if ta.date_posted.tv_nsec < tb.date_posted.tv_nsec then .lt
    else if tb.date_posted.tv_nsec < ta.date_posted.tv_nsec then .gt
    else
      match safe_strcmp (some ta.num) (some tb.num) with
      | .eq =>
        match safe_strcmp (some ta.description) (some tb.description) with
        | .eq => .eq
        | o => o
      | o => o

def xaccSplitOrder :
    Option (Split × Option Transaction) → Option (Split × Option Transaction) → Ordering
  | some _, none => .lt
  | none, some _ => .gt
  | none, none => .eq
  | some (sa, pa), some (sb, pb) =>
    match xaccTransOrder pa pb with
    | .eq =>
      match safe_strcmp (some sa.memo) (some sb.memo) with
      | .eq =>
        match safe_strcmp (some sa.action) (some sb.action) with
        | .eq => .eq
        | o => o
      | o => o
    | o => o

/-- The transaction key comparison exactly as the spec words it: posted-time
seconds, then posted-time sub-seconds, then `num`, then `description`. -/
def transKeyCmp (ta tb : Transaction) : Ordering :=
  (intCmp ta.date_posted.tv_sec tb.date_posted.tv_sec).then
    ((intCmp ta.date_posted.tv_nsec tb.date_posted.tv_nsec).then
      ((strCmp ta.num tb.num).then (strCmp ta.description tb.description)))

/-- The spec's canonical transaction order: presence first (a present
transaction sorts before an absent one), then `transKeyCmp`. -/
def specTransOrder : Option Transaction → Option Transaction → Ordering
  | some _, none => .lt
  | none, some _ => .gt
  | none, none => .eq
  | some ta, some tb => transKeyCmp ta tb

/-- Posted-timestamp chronological (lexicographic) strict order. -/
def tsLt (x y : Timespec) : Prop :=
  x.tv_sec < y.tv_sec ∨ (x.tv_sec = y.tv_sec ∧ x.tv_nsec < y.tv_nsec)

instance (x y : Timespec) : Decidable (tsLt x y) := by
  unfold tsLt; infer_instance

theorem xaccTransOrder_eq_spec (ta tb : Option Transaction) :
    xaccTransOrder ta tb = specTransOrder ta tb := by
  cases ta with
  | none => cases tb <;> rfl
  | some a =>
    cases tb with
    | none => rfl
    | some b =>
      simp only [xaccTransOrder, specTransOrder, transKeyCmp, safe_strcmp, intCmp]
      split_ifs <;> try rfl
      all_goals (rcases hn : strCmp a.num b.num with _ | _ | _ <;>
        rcases hd : strCmp a.description b.description with _ | _ | _ <;>
        simp [hn, hd, Ordering.then])

theorem lawful_on {α β : Type} {cmp : β → β → Ordering} (h : cmpIsLawful cmp)
    (f : α → β) : cmpIsLawful (fun a b => cmp (f a) (f b)) := by
  obtain ⟨s, lt, eq, el, le⟩ := h
  exact ⟨fun a b => s (f a) (f b),
    fun a b c => lt (f a) (f b) (f c),
    fun a b c => eq (f a) (f b) (f c),
    fun a b c => el (f a) (f b) (f c),
    fun a b c => le (f a) (f b) (f c)⟩

theorem transKeyCmp_lawful : cmpIsLawful transKeyCmp :=
  lawful_then (lawful_on intCmp_lawful fun t => t.date_posted.tv_sec)
    (lawful_then (lawful_on intCmp_lawful fun t => t.date_posted.tv_nsec)
      (lawful_then (lawful_on strCmp_lawful fun t => t.num)
        (lawful_on strCmp_lawful fun t => t.description)))

theorem specTransOrder_lawful : cmpIsLawful specTransOrder := by
  obtain ⟨s, lt, eq, el, le⟩ := transKeyCmp_lawful
  refine ⟨?_, ?_, ?_, ?_, ?_⟩
  · intro a b
    cases a <;> cases b <;> try rfl
    exact s _ _
  · intro a b c h1 h2
    cases a <;> cases b <;> cases c <;>
      first
      | rfl
      | (exfalso; simp [specTransOrder] at h1 h2; done)
      | exact lt _ _ _ h1 h2
  · intro a b c h1 h2
    cases a <;> cases b <;> cases c <;>
      first
      | rfl
      | (exfalso; simp [specTransOrder] at h1 h2; done)
      | exact eq _ _ _ h1 h2
  · intro a b c h1 h2
    cases a <;> cases b <;> cases c <;>
      first
      | rfl
      | (exfalso; simp [specTransOrder] at h1 h2; done)
      | exact el _ _ _ h1 h2
  · intro a b c h1 h2
    cases a <;> cases b <;> cases c <;>
      first
      | rfl
      | (exfalso; simp [specTransOrder] at h1 h2; done)
      | exact le _ _ _ h1 h2

/-! ### Read accessors (permissive-read contract)

These C functions dereference only the split/transaction record handed to
them, so they are embedded on the dereferenced value; `none` is the NULL
pointer.  `xaccTransCountSplits` has no NULL guard in the source: it reads
`trans->splits` unconditionally, which on a NULL transaction is a NULL
dereference, embedded as an error. -/

def xaccSplitGetMemo : Option Split → Option Str
  | none => none
  | some s => some s.memo

def xaccSplitGetAction : Option Split → Option Str
  | none => none
  | some s => some s.action

def xaccSplitGetValue : Option Split → Rat
  | none => 0
  | some s => s.damount * s.share_price

def xaccSplitGetShareAmount : Option Split → Rat
  | none => 0
  | some s => s.damount

def xaccSplitGetSharePrice : Option Split → Rat
  | none => 1
  | some s => s.share_price

def xaccTransGetNum : Option Transaction → Option Str
  | none => none
  | some t => some t.num

def xaccTransGetDescription : Option Transaction → Option Str
  | none => none
  | some t => some t.description

def xaccTransGetDate : Option Transaction → Int
  | none => 0
  | some t => t.date_posted.tv_sec

/-- `xaccCountSplits` walks the NULL-terminated array: its result is the
length of the member list.  A NULL array gives zero. -/
def xaccCountSplits : Option (List Nat) → Nat
  | none => 0
  | some l => l.length

/-- `xaccTransCountSplits` reads `trans->splits` with no NULL guard. -/
def xaccTransCountSplits : Option Transaction → Except Err Nat
  | none => .error .nullDeref
  | some t => .ok (xaccCountSplits (some t.splits))

/-- `xaccTransGetSplit`: NULL transaction or negative index give NULL; an
index inside the sequence gives that split; the index just past the end
reads the NULL terminator (NULL result); any larger index reads past the
allocated terminator, which is undefined in the source. -/
def xaccTransGetSplit : Option Transaction → Int → Except Err (Option Nat)
  | none, _ => .ok none
  | some t, i =>
    if i < 0 then .ok none
    else if i.toNat < t.splits.length then .ok (t.splits.get? i.toNat)
    else if i.toNat = t.splits.length then .ok none
    else .error .undefinedRead

/-! ### Base-value conversion (`xaccSplitSetBaseValue` / `xaccSplitGetBaseValue`)

`base` is the `base_currency` argument (`none` = NULL).  A split without an
account under enforcement hits `assert (s->acc)`; the mismatched-currency
branch only prints an error and leaves everything unchanged (set) or
returns `0.0` (get), exactly as the source does. -/

def xaccSplitSetBaseValue (st : State) (sid? : Option Nat) (value : Rat)
    (base : Option Str) : Except Err State :=
  match sid? with
  | none => .ok st
  | some sid =>
    match getSplit st sid with
    | none => .error .nullDeref
    | some s =>
      match s.acc with
      | none =>
        if st.force_double_entry then .error .contractViolation
        else .ok (setSplit st sid { s with damount := value / s.share_price })
      | some aid =>
        match getAcc st aid with
        | none => .error .nullDeref
        | some a =>
          if safe_strcmp (some a.currency) base = .eq then
            .ok (setSplit st sid { s with damount := value / s.share_price })
          else if safe_strcmp (some a.security) base = .eq then
            .ok (setSplit st sid { s with damount := value })
          else if base = none ∧ st.force_double_entry = false then
            .ok (setSplit st sid { s with damount := value / s.share_price })
          else
            .ok st

def xaccSplitGetBaseValue (force : Bool) (sA : List (Option Split))
    (accs : List Account) (sid? : Option Nat) (base : Option Str) :
    Except Err Rat :=
  match sid? with
  | none => .ok 0
  | some sid =>
    match getSplitA sA sid with
    | none => .error .nullDeref
    | some s =>
      match s.acc with
      | none =>
        if force then .error .contractViolation
        else .ok (s.damount * s.share_price)
      | some aid =>
        match getAccA accs aid with
        | none => .error .nullDeref
        | some a =>
          if safe_strcmp (some a.currency) base = .eq then
            .ok (s.damount * s.share_price)
          else if safe_strcmp (some a.security) base = .eq then
            .ok s.damount
          else if base = none ∧ force = false then
            .ok (s.damount * s.share_price)
          else
            .ok 0

/-- `ComputeValue`: total of the base-currency values of the splits in the
array, skipping `skip_me`.  A split without an account under enforcement,
or an account matching neither the currency nor the security of a non-NULL
base, is a fatal inconsistency (`assert`). -/
def ComputeValue (force : Bool) (sA : List (Option Split))
    (accs : List Account) : List Nat → Nat → Option Str → Except Err Rat
  | [], _, _ => .ok 0
  | sid :: rest, skip, base =>
    match ComputeValue force sA accs rest skip base with
    | .error e => .error e
    | .ok rv =>
      if sid = skip then .ok rv
      else
        match getSplitA sA sid with
        | none => .error .nullDeref
        | some s =>
          match s.acc with
          | none =>
            if force then .error .contractViolation
            else .ok (s.damount * s.share_price + rv)
          | some aid =>
            match getAccA accs aid with
            | none => .error .nullDeref
            | some a =>
              if base = none ∧ force = false then
                .ok (s.damount * s.share_price + rv)
              else if safe_strcmp (some a.currency) base = .eq then
                .ok (s.share_price * s.damount + rv)
              else if safe_strcmp (some a.security) base = .eq then
                .ok (s.damount + rv)
              else
                .error .currencyInconsistency

/-! ### The currency resolver (the candidate loop of `xaccSplitRebalance`) -/

/-- The `security` field with the empty string treated as absent
(`if (sb && (0x0==sb[0])) sb = 0x0`). -/
def secNull (s : Str) : Option Str :=
  if s = [] then none else some s

/-- One step of the candidate loop of `xaccSplitRebalance`: confront the
current candidate pair `(ra, rb)` with one split.  With enforcement off the
body is skipped for every split (`i++; s=trans->splits[i]; continue;`), so
the candidates pass through untouched; with enforcement on an account-less
split is fatal (`assert (s->acc)`); a candidate matching exactly one of the
split's units while the other candidate fails both drops the failing
candidate; if the candidate set collapses the common currency is
unresolvable. -/
def updateCandidates (force : Bool) (sA : List (Option Split))
    (accs : List Account) (ra rb : Option Str) (sid : Nat) :
    Except Err (Option Str × Option Str) :=
  if ¬ force then .ok (ra, rb)
  else
  match getSplitA sA sid with
  | none => .error .nullDeref
  | some s =>
    match s.acc with
    | none => .error .contractViolation
    | some aid =>
      match getAccA accs aid with
      | none => .error .nullDeref
      | some acc =>
        let sa := acc.currency
        let sb := secNull acc.security
        match ra, rb with
        | some ca, some cb =>
          let aa := safe_strcmp (some ca) (some sa)
          let ab := safe_strcmp (some ca) sb
          let ba := safe_strcmp (some cb) (some sa)
          let bb := safe_strcmp (some cb) sb
          let (ra1, rb1) : Option Str × Option Str :=
            if aa = .eq ∧ bb ≠ .eq then (ra, none)
            else if ab = .eq ∧ ba ≠ .eq then (ra, none)
            else if ba = .eq ∧ ab ≠ .eq then (none, rb)
            else if bb = .eq ∧ aa ≠ .eq then (none, rb)
            else if aa ≠ .eq ∧ bb ≠ .eq ∧ ab ≠ .eq ∧ ba ≠ .eq then (none, none)
            else (ra, rb)
          let (ra2, rb2) : Option Str × Option Str :=
            if ra1 = none then (rb1, none) else (ra1, rb1)
          if ra2 = none ∧ rb2 = none then .error .currencyInconsistency
          else .ok (ra2, rb2)
        | some ca, none =>
          let aa := safe_strcmp (some ca) (some sa)
          let ab := safe_strcmp (some ca) sb
          let ra1 : Option Str := if aa ≠ .eq ∧ ab ≠ .eq then none else ra
          if ra1 = none then .error .currencyInconsistency
          else .ok (ra1, none)
        | none, rbv =>
          -- the C loop has no branch for a NULL `ra`; only the collapse
          -- check at the bottom of the loop applies
          if rbv = none then .error .currencyInconsistency
          else .ok (none, rbv)

/-- The candidate loop over the whole split array. -/
def resolveLoop (force : Bool) (sA : List (Option Split))
    (accs : List Account) : List Nat → Option Str → Option Str →
    Except Err (Option Str × Option Str)
  | [], ra, rb => .ok (ra, rb)
  | sid :: rest, ra, rb =>
    match updateCandidates force sA accs ra rb sid with
    | .error e => .error e
    | .ok (ra1, rb1) => resolveLoop force sA accs rest ra1 rb1

/-- Outcome of the pre-rebalance phase: skip entirely (deferred account), or
go ahead with the resolved base currency (`ra`, preferring the currency
slot; `none` when the triggering split has no account). -/
inductive RebalGo where
  | skip
  | go (base : Option Str)
deriving DecidableEq, Repr

/-- The head of `xaccSplitRebalance`: the deferred-account check, the
`assert(trans->splits[0])` checks, and the common-currency resolution
anchored at the triggering split's account. -/
def rebalResolve (force : Bool) (sA : List (Option Split))
    (accs : List Account) (split : Split) (trans : Transaction) :
    Except Err RebalGo :=
  match split.acc with
  | some aid =>
    match getAccA accs aid with
    | none => .error .nullDeref
    | some acc =>
      if acc.accDefer then .ok .skip
      else if trans.splits = [] then .error .assertFail
      else
        match resolveLoop force sA accs trans.splits
            (some acc.currency) (secNull acc.security) with
        | .error e => .error e
        | .ok (ra, _rb) => .ok (.go ra)
  | none =>
    if trans.splits = [] then .error .assertFail
    else .ok (.go none)

/-! ### Structural mutation -/

/-- `xaccTransRemoveSplit` (engine-private, never rebalances): clear the
split's parent pointer, then compact it out of the transaction's array. -/
def xaccTransRemoveSplit (st : State) (tid? sid? : Option Nat) :
    Except Err State :=
  match sid? with
  | none => .ok st
  | some sid =>
    match tid? with
    | none => .ok st
    | some tid =>
      match getSplit st sid with
      | none => .error .nullDeref
      | some s =>
        let st1 := setSplit st sid { s with parent := none }
        match getTrans st1 tid with
        | none => .error .nullDeref
        | some t =>
          .ok (setTrans st1 tid { t with splits := t.splits.filter (fun x => x ≠ sid) })

/-- The fuel given to the rebalancer; the recursion depth of
rebalance/append is bounded by a small constant, see the theorems below. -/
def rebalanceFuel : Nat := 8

mutual

/-- `xaccSplitRebalance`, with explicit fuel for the mutual recursion with
`xaccTransAppendSplit`.  A NULL split is dereferenced (`split->parent`).
After the deferred checks and the currency resolution, a triggering source
split forces the first destination split to the negated total (or, with no
destination under enforcement and a non-zero quantity, auto-creates the
balancing split); a triggering destination split forces the source split. -/
def xaccSplitRebalanceF : Nat → State → Option Nat → Except Err State
  | 0, _, _ => .error .outOfFuel
  | Nat.succ fuel, st, sid? =>
    match sid? with
    | none => .error .nullDeref
    | some sid =>
      match getSplit st sid with
      | none => .error .nullDeref
      | some split =>
        match split.parent with
        | none => .ok st
        | some tid =>
          match getTrans st tid with
          | none => .error .nullDeref
          | some tr =>
            if tr.open_defer then .ok st
            else
              match rebalResolve st.force_double_entry st.sArena
                  st.accounts split tr with
              | .error e => .error e
              | .ok .skip => .ok st
              | .ok (.go base) =>
                match tr.splits with
                | [] => .error .assertFail
                | s0 :: rest =>
                  if sid = s0 then
                    match rest with
                    | dest :: _ =>
                      match ComputeValue st.force_double_entry st.sArena
                          st.accounts tr.splits dest base with
                      | .error e => .error e
                      | .ok value =>
                        match xaccSplitSetBaseValue st (some dest)
                            (-value) base with
                        | .error e => .error e
                        | .ok st1 =>
                          let st2 := markSplitId st1 dest
                          .ok (xaccAccountRecomputeBalance st2
                            ((getSplit st2 dest).bind Split.acc))
                    | [] =>
                      if st.force_double_entry then
                        if split.damount = 0 then .ok st
                        else
                          let value := split.share_price * split.damount
                          let (nid, stA) := allocSplit st
                            { xaccInitSplit with
                                damount := -value
                                memo := split.memo
                                action := split.action }
                          let stB := markSplitId stA nid
                          match xaccTransAppendSplitF fuel stB
                              (some tid) (some nid) with
                          | .error e => .error e
                          | .ok stC =>
                            .ok (xaccAccountInsertSplit stC split.acc nid)
                      else .ok st
                  else
                    match ComputeValue st.force_double_entry st.sArena
                        st.accounts tr.splits s0 base with
                    | .error e => .error e
                    | .ok value =>
                      match xaccSplitSetBaseValue st (some s0)
                          (-value) base with
                      | .error e => .error e
                      | .ok st1 =>
                        let st2 := markSplitId st1 s0
                        .ok (xaccAccountRecomputeBalance st2
                          ((getSplit st2 s0).bind Split.acc))

/-- `xaccTransAppendSplit` (fueled): NULL arguments return silently; a split
already parented elsewhere is first removed from its old transaction, which
is then rebalanced (`xaccTransRebalance (oldtrans)`, inlined here as the
rebalance of the old transaction's source split); then the split's parent
back-pointer is set, the split is appended at the end of the array, and the
transaction is rebalanced from the appended split. -/
def xaccTransAppendSplitF : Nat → State → Option Nat → Option Nat → Except Err State
  | 0, _, _, _ => .error .outOfFuel
  | Nat.succ fuel, st, tid?, sid? =>
    match tid? with
    | none => .ok st
    | some tid =>
      match sid? with
      | none => .ok st
      | some tidsid =>
        match getTrans st tid with
        | none => .error .nullDeref
        | some _ =>
          match getSplit st tidsid with
          | none => .error .nullDeref
          | some split =>
            match
              (match split.parent with
               | none => Except.ok st
               | some oldtid =>
                 match xaccTransRemoveSplit st (some oldtid) (some tidsid) with
                 | .error e => .error e
                 | .ok st1 =>
                   match getTrans st1 oldtid with
                   | none => .error .nullDeref
                   | some oldt => xaccSplitRebalanceF fuel st1 oldt.splits.head?) with
            | .error e => .error e
            | .ok st2 =>
              match getSplit st2 tidsid with
              | none => .error .nullDeref
              | some split2 =>
                let st3 := setSplit st2 tidsid { split2 with parent := some tid }
                match getTrans st3 tid with
                | none => .error .nullDeref
                | some trans3 =>
                  let st4 := setTrans st3 tid
                    { trans3 with splits := trans3.splits ++ [tidsid] }
                  xaccSplitRebalanceF fuel st4 (some tidsid)

end

/-- `xaccTransRebalance`: rebalance from the source split (`splits[0]`; an
empty array makes that the NULL terminator). -/
def xaccTransRebalanceF (fuel : Nat) (st : State) (tid? : Option Nat) :
    Except Err State :=
  match tid? with
  | none => .error .nullDeref
  | some tid =>
    match getTrans st tid with
    | none => .error .nullDeref
    | some tr => xaccSplitRebalanceF fuel st tr.splits.head?

/-- `xaccSplitRebalance` at the standard fuel. -/
def xaccSplitRebalance (st : State) (sid? : Option Nat) : Except Err State :=
  xaccSplitRebalanceF rebalanceFuel st sid?

/-- `xaccTransAppendSplit` at the standard fuel. -/
def xaccTransAppendSplit (st : State) (tid? sid? : Option Nat) : Except Err State :=
  xaccTransAppendSplitF rebalanceFuel st tid? sid?

/-- `xaccTransRebalance` at the standard fuel. -/
def xaccTransRebalance (st : State) (tid? : Option Nat) : Except Err State :=
  xaccTransRebalanceF rebalanceFuel st tid?

/-! ### The quantity/price/value setters -/

/-- `xaccSplitSetShareAmount`: mark, set the quantity, rebalance. -/
def xaccSplitSetShareAmount (st : State) (sid? : Option Nat) (amt : Rat) :
    Except Err State :=
  match sid? with
  | none => .error .nullDeref
  | some sid =>
    match getSplit st sid with
    | none => .error .nullDeref
    | some s =>
      let st1 := markSplit st s
      let st2 := setSplit st1 sid { s with damount := amt }
      xaccSplitRebalanceF rebalanceFuel st2 (some sid)

/-- `xaccSplitSetSharePrice`: mark, set the price, rebalance. -/
def xaccSplitSetSharePrice (st : State) (sid? : Option Nat) (amt : Rat) :
    Except Err State :=
  match sid? with
  | none => .error .nullDeref
  | some sid =>
    match getSplit st sid with
    | none => .error .nullDeref
    | some s =>
      let st1 := markSplit st s
      let st2 := setSplit st1 sid { s with share_price := amt }
      xaccSplitRebalanceF rebalanceFuel st2 (some sid)

/-- `xaccSplitSetValue`: mark, set the quantity to `amt / share_price`,
rebalance. -/
def xaccSplitSetValue (st : State) (sid? : Option Nat) (amt : Rat) :
    Except Err State :=
  match sid? with
  | none => .error .nullDeref
  | some sid =>
    match getSplit st sid with
    | none => .error .nullDeref
    | some s =>
      let st1 := markSplit st s
      let st2 := setSplit st1 sid { s with damount := amt / s.share_price }
      xaccSplitRebalanceF rebalanceFuel st2 (some sid)

/-! ### Edit-session lifecycle -/

/-- `xaccTransBeginEdit`: `assert (trans)`, set the `BEGIN_EDIT` bit (plus
`DEFER_REBALANCE` when deferring), open the log, write a Begin record. -/
def xaccTransBeginEdit (st : State) (tid? : Option Nat) (defer : Bool) :
    Except Err State :=
  match tid? with
  | none => .error .assertFail
  | some tid =>
    match getTrans st tid with
    | none => .error .nullDeref
    | some t =>
      let st1 := setTrans st tid
        { t with open_begin := true, open_defer := defer }
      .ok (xaccTransWriteLog st1 tid 'B')

/-- `xaccTransCommitEdit`: NULL returns silently; `CHECK_OPEN` only logs;
clear the `DEFER_REBALANCE` bit, rebalance the transaction, let the Account
collaborator re-check date order and recompute balances for every split's
account, close the edit state, write a Commit record. -/
def xaccTransCommitEdit (st : State) (tid? : Option Nat) : Except Err State :=
  match tid? with
  | none => .ok st
  | some tid =>
    match getTrans st tid with
    | none => .error .nullDeref
    | some t =>
      let st1 := setTrans st tid { t with open_defer := false }
      match xaccTransRebalanceF rebalanceFuel st1 (some tid) with
      | .error e => .error e
      | .ok st2 =>
        -- the xaccCheckDateOrder and xaccAccountRecomputeBalance loops
        -- only touch state owned by the Account collaborator
        match getTrans st2 tid with
        | none => .error .nullDeref
        | some t2 =>
          let st3 := setTrans st2 tid
            { t2 with open_begin := false, open_defer := false }
          .ok (xaccTransWriteLog st3 tid 'C')

/-! ### Split destruction -/

/-- `xaccSplitDestroy`: membership scan with `assert (ismember)`; with more
than two splits, unlink the split, detach it from its account and rebalance
the remaining transaction; with at most two splits, journal a Destroy
record, detach the first split (and the second one if it exists, in which
case the whole transaction is freed).  The missing free in the single-split
case reproduces the source exactly. -/
def xaccSplitDestroy (st : State) (sid? : Option Nat) : Except Err State :=
  match sid? with
  | none => .error .nullDeref
  | some sid =>
    match getSplit st sid with
    | none => .error .nullDeref
    | some split =>
      match split.parent with
      | none => .error .assertFail
      | some tid =>
        match getTrans st tid with
        | none => .error .nullDeref
        | some tr =>
          let st0 := markChanged st tr
          if sid ∈ tr.splits then
            if 2 < tr.splits.length then
              let st1 := markSplitId st0 sid
              match xaccTransRemoveSplit st1 (some tid) (some sid) with
              | .error e => .error e
              | .ok st2 =>
                let st3 := xaccAccountRemoveSplit st2 split.acc sid
                let st4 := xaccAccountRecomputeBalance st3 split.acc
                let st5 := xaccFreeSplit st4 sid
                match getTrans st5 tid with
                | none => .error .nullDeref
                | some t5 => xaccSplitRebalanceF rebalanceFuel st5 t5.splits.head?
            else
              let stL := xaccTransWriteLog st0 tid 'D'
              match tr.splits.head? with
              | none => .error .nullDeref
              | some f0 =>
                match getSplit stL f0 with
                | none => .error .nullDeref
                | some sA =>
                  let st1 := xaccAccountRemoveSplit (markSplit stL sA) sA.acc f0
                  let st2 := xaccAccountRecomputeBalance st1 sA.acc
                  match tr.splits.get? 1 with
                  | none => .ok st2
                  | some f1 =>
                    match getSplit st2 f1 with
                    | none => .error .nullDeref
                    | some sB =>
                      let st3 := xaccAccountRemoveSplit (markSplit st2 sB) sB.acc f1
                      let st4 := xaccAccountRecomputeBalance st3 sB.acc
                      .ok (xaccFreeTransaction st4 tid)
          else .error .contractViolation

/-! ### Field setters -/

/-- `xaccTransSetNum`: NULL returns silently, `CHECK_OPEN` only logs, the
field is replaced and every split's account marked changed. -/
def xaccTransSetNum (st : State) (tid? : Option Nat) (xnum : Str) :
    Except Err State :=
  match tid? with
  | none => .ok st
  | some tid =>
    match getTrans st tid with
    | none => .error .nullDeref
    | some t =>
      let st1 := setTrans st tid { t with num := xnum }
      .ok (markChanged st1 { t with num := xnum })

/-- `xaccTransSetDescription`: same shape as `xaccTransSetNum`. -/
def xaccTransSetDescription (st : State) (tid? : Option Nat) (desc : Str) :
    Except Err State :=
  match tid? with
  | none => .ok st
  | some tid =>
    match getTrans st tid with
    | none => .error .nullDeref
    | some t =>
      let st1 := setTrans st tid { t with description := desc }
      .ok (markChanged st1 { t with description := desc })

/-- `xaccTransSetDateSecs`: NULL returns silently, `CHECK_OPEN` only logs,
both timestamps' seconds are set, and every split is removed from and
re-inserted into its account so the account's date order is restored. -/
def xaccTransSetDateSecs (st : State) (tid? : Option Nat) (secs : Int) :
    Except Err State :=
  match tid? with
  | none => .ok st
  | some tid =>
    match getTrans st tid with
    | none => .error .nullDeref
    | some t =>
      let st1 := setTrans st tid
        { t with date_entered := { t.date_entered with tv_sec := secs }
                 date_posted := { t.date_posted with tv_sec := secs } }
      .ok (t.splits.foldl
        (fun acc sid =>
          let a := (getSplit acc sid).bind Split.acc
          xaccAccountInsertSplit (xaccAccountRemoveSplit acc a sid) a sid)
        st1)

/-! ### State-access lemmas -/

theorem getSplit_lt {st : State} {sid : Nat} {s : Split}
    (h : getSplit st sid = some s) : sid < st.sArena.length := by
  by_contra hn
  simp only [getSplit, getSplitA, List.get?_eq_none.mpr (le_of_not_lt hn)] at h
  exact Option.noConfusion h

theorem getSplit_setSplit_self {st : State} {sid : Nat} {s : Split}
    (h : getSplit st sid = some s) (s1 : Split) :
    getSplit (setSplit st sid s1) sid = some s1 := by
  have hl := getSplit_lt h
  simp [getSplit, getSplitA, setSplit, List.getElem?_set_eq_of_lt _ hl]

theorem getSplit_setSplit_ne (st : State) {sid j : Nat} (h : sid ≠ j)
    (s1 : Split) : getSplit (setSplit st sid s1) j = getSplit st j := by
  simp [getSplit, getSplitA, setSplit, List.getElem?_set_ne h]

theorem getAcc_setSplit (st : State) (sid : Nat) (s1 : Split) (aid : Nat) :
    getAcc (setSplit st sid s1) aid = getAcc st aid := rfl

theorem getTrans_setSplit (st : State) (sid : Nat) (s1 : Split) (tid : Nat) :
    getTrans (setSplit st sid s1) tid = getTrans st tid := rfl

theorem getSplit_setTrans (st : State) (tid : Nat) (t : Transaction) (sid : Nat) :
    getSplit (setTrans st tid t) sid = getSplit st sid := rfl

theorem getAcc_setTrans (st : State) (tid : Nat) (t : Transaction) (aid : Nat) :
    getAcc (setTrans st tid t) aid = getAcc st aid := rfl

theorem getTrans_lt {st : State} {tid : Nat} {t : Transaction}
    (h : getTrans st tid = some t) : tid < st.tArena.length := by
  by_contra hn
  simp only [getTrans, getTransA, List.get?_eq_none.mpr (le_of_not_lt hn)] at h
  exact Option.noConfusion h

theorem getTrans_setTrans_self {st : State} {tid : Nat} {t : Transaction}
    (h : getTrans st tid = some t) (t1 : Transaction) :
    getTrans (setTrans st tid t1) tid = some t1 := by
  have hl := getTrans_lt h
  simp [getTrans, getTransA, setTrans, List.getElem?_set_eq_of_lt _ hl]

theorem getTrans_setTrans_ne (st : State) {tid j : Nat} (h : tid ≠ j)
    (t1 : Transaction) : getTrans (setTrans st tid t1) j = getTrans st j := by
  simp [getTrans, getTransA, setTrans, List.getElem?_set_ne h]

theorem getSplit_markSplit (st : State) (s : Split) (sid : Nat) :
    getSplit (markSplit st s) sid = getSplit st sid := by
  unfold markSplit
  cases s.acc <;> rfl

theorem getTrans_markSplit (st : State) (s : Split) (tid : Nat) :
    getTrans (markSplit st s) tid = getTrans st tid := by
  unfold markSplit
  cases s.acc <;> rfl

theorem getAcc_markSplit (st : State) (s : Split) (aid : Nat) :
    getAcc (markSplit st s) aid = getAcc st aid := by
  unfold markSplit
  cases s.acc <;> rfl

theorem sArena_markSplit (st : State) (s : Split) :
    (markSplit st s).sArena = st.sArena := by
  unfold markSplit
  cases s.acc <;> rfl

theorem tArena_markSplit (st : State) (s : Split) :
    (markSplit st s).tArena = st.tArena := by
  unfold markSplit
  cases s.acc <;> rfl

theorem accounts_markSplit (st : State) (s : Split) :
    (markSplit st s).accounts = st.accounts := by
  unfold markSplit
  cases s.acc <;> rfl

theorem force_markSplit (st : State) (s : Split) :
    (markSplit st s).force_double_entry = st.force_double_entry := by
  unfold markSplit
  cases s.acc <;> rfl

theorem sArena_markSplitId (st : State) (sid : Nat) :
    (markSplitId st sid).sArena = st.sArena := by
  unfold markSplitId
  cases getSplit st sid with
  | none => rfl
  | some s => exact sArena_markSplit st s

theorem tArena_markSplitId (st : State) (sid : Nat) :
    (markSplitId st sid).tArena = st.tArena := by
  unfold markSplitId
  cases getSplit st sid with
  | none => rfl
  | some s => exact tArena_markSplit st s

theorem accounts_markSplitId (st : State) (sid : Nat) :
    (markSplitId st sid).accounts = st.accounts := by
  unfold markSplitId
  cases getSplit st sid with
  | none => rfl
  | some s => exact accounts_markSplit st s

theorem force_markSplitId (st : State) (sid : Nat) :
    (markSplitId st sid).force_double_entry = st.force_double_entry := by
  unfold markSplitId
  cases getSplit st sid with
  | none => rfl
  | some s => exact force_markSplit st s

theorem getSplit_markSplitId (st : State) (x sid : Nat) :
    getSplit (markSplitId st x) sid = getSplit st sid := by
  simp [getSplit, getSplitA, sArena_markSplitId]

theorem getTrans_markSplitId (st : State) (x tid : Nat) :
    getTrans (markSplitId st x) tid = getTrans st tid := by
  simp [getTrans, getTransA, tArena_markSplitId]

theorem getAcc_markSplitId (st : State) (x aid : Nat) :
    getAcc (markSplitId st x) aid = getAcc st aid := by
  simp [getAcc, getAccA, accounts_markSplitId]

theorem safe_strcmp_some_eq_iff (a b : Str) :
    safe_strcmp (some a) (some b) = .eq ↔ a = b := by
  simp [safe_strcmp, strCmp_eq_iff]

/-- Evaluation of `xaccSplitSetBaseValue` on a live split with a live
account and a non-NULL base currency. -/
theorem setBaseValue_eval {st : State} {sid : Nat} {s : Split} {aid : Nat}
    {a : Account} (v : Rat) (base : Str)
    (hs : getSplit st sid = some s) (hacc : s.acc = some aid)
    (ha : getAcc st aid = some a) :
    xaccSplitSetBaseValue st (some sid) v (some base) =
      if safe_strcmp (some a.currency) (some base) = .eq then
        .ok (setSplit st sid { s with damount := v / s.share_price })
      else if safe_strcmp (some a.security) (some base) = .eq then
        .ok (setSplit st sid { s with damount := v })
      else .ok st := by
  simp only [xaccSplitSetBaseValue, hs, hacc, ha]
  simp

/-- Evaluation of `xaccSplitGetBaseValue` on a live split with a live
account and a non-NULL base currency. -/
theorem getBaseValue_eval {f : Bool} {sA : List (Option Split)}
    {accs : List Account} {sid : Nat} {s : Split} {aid : Nat} {a : Account}
    (base : Str)
    (hs : getSplitA sA sid = some s) (hacc : s.acc = some aid)
    (ha : getAccA accs aid = some a) :
    xaccSplitGetBaseValue f sA accs (some sid) (some base) =
      if safe_strcmp (some a.currency) (some base) = .eq then
        .ok (s.damount * s.share_price)
      else if safe_strcmp (some a.security) (some base) = .eq then
        .ok s.damount
      else .ok 0 := by
  simp only [xaccSplitGetBaseValue, hs, hacc, ha]
  simp

/-- C10: for a split with a non-zero share price whose account currency or
security equals the base-currency argument, `xaccSplitSetBaseValue` followed
by `xaccSplitGetBaseValue` with the same base currency returns exactly the
value that was set (exact arithmetic), and the share price is unchanged. -/
theorem c10_base_value_roundtrip (st : State) (sid : Nat) (s : Split)
    (aid : Nat) (a : Account) (v : Rat) (base : Str)
    (h : getSplit st sid = some s)
    (hacc : s.acc = some aid)
    (hgacc : getAcc st aid = some a)
    (hp : s.share_price ≠ 0)
    (hmatch : a.currency = base ∨ a.security = base) :
    ∃ st', xaccSplitSetBaseValue st (some sid) v (some base) = .ok st' ∧
      xaccSplitGetBaseValue st'.force_double_entry st'.sArena st'.accounts
        (some sid) (some base) = .ok v ∧
      ∃ s', getSplit st' sid = some s' ∧ s'.share_price = s.share_price := by
  by_cases hc : a.currency = base
  · have hcs : safe_strcmp (some a.currency) (some base) = .eq :=
      (safe_strcmp_some_eq_iff _ _).mpr hc
    refine ⟨setSplit st sid { s with damount := v / s.share_price }, ?_, ?_, ?_⟩
    · rw [setBaseValue_eval v base h hacc hgacc, if_pos hcs]
    · have hg : getSplitA (st.sArena.set sid
          (some { s with damount := v / s.share_price })) sid
          = some { s with damount := v / s.share_price } :=
        getSplit_setSplit_self h _
      simp only [setSplit]
      rw [getBaseValue_eval base hg hacc hgacc, if_pos hcs]
      rw [div_mul_cancel₀ _ hp]
    · exact ⟨_, getSplit_setSplit_self h _, rfl⟩
  · have hs : a.security = base := hmatch.resolve_left hc
    have hcs : ¬ safe_strcmp (some a.currency) (some base) = .eq := by
      simp [safe_strcmp_some_eq_iff, hc]
    have hss : safe_strcmp (some a.security) (some base) = .eq :=
      (safe_strcmp_some_eq_iff _ _).mpr hs
    refine ⟨setSplit st sid { s with damount := v }, ?_, ?_, ?_⟩
    · rw [setBaseValue_eval v base h hacc hgacc, if_neg hcs, if_pos hss]
    · have hg : getSplitA (st.sArena.set sid (some { s with damount := v })) sid
          = some { s with damount := v } :=
        getSplit_setSplit_self h _
      simp only [setSplit]
      rw [getBaseValue_eval base hg hacc hgacc, if_neg hcs, if_pos hss]
    · exact ⟨_, getSplit_setSplit_self h _, rfl⟩

/-- A concrete account for the C10 witness. -/
def accW10 : Account :=
  { accountName := ['A'], currency := ['U','S','D'], security := [],
    accDefer := false }

/-- A concrete split (price 2) for the C10 witness. -/
def splitW10 : Split :=
  { xaccInitSplit with acc := some 0, share_price := 2, damount := 3 }

/-- A concrete one-split state for the C10 witness. -/
def stW10 : State :=
  { sArena := [some splitW10], tArena := [], accounts := [accW10],
    force_double_entry := false, changed := [], log := [] }

theorem c10_base_value_roundtrip_witness :
    ∃ st', xaccSplitSetBaseValue stW10 (some 0) 5 (some ['U','S','D']) = .ok st' ∧
      xaccSplitGetBaseValue st'.force_double_entry st'.sArena st'.accounts
        (some 0) (some ['U','S','D']) = .ok 5 ∧
      ∃ s', getSplit st' 0 = some s' ∧ s'.share_price = splitW10.share_price :=
  c10_base_value_roundtrip stW10 0 splitW10 0 accW10 5 _ rfl rfl rfl
    (by decide) (Or.inl rfl)

/-- C9 (counterexample to the claim as stated): `xaccTransCountSplits` has
no NULL guard — on an absent transaction it dereferences the NULL pointer
instead of returning a defined zero value. -/
theorem c9_countsplits_null_fails :
    xaccTransCountSplits none = .error .nullDeref := rfl

/-- C9 (amended): the guarded accessors return their defined defaults on an
absent split/transaction (absent memo/num, zero value/date, share price 1);
`xaccTransCountSplits` is total only on present transactions, where it
returns the length of the sequence; `xaccTransGetSplit` is total on absent
transactions and on any index up to the length of the sequence (the NULL
terminator), and fails beyond it. -/
theorem c9_absent_reads :
    xaccSplitGetMemo none = none ∧
    xaccSplitGetValue none = 0 ∧
    xaccSplitGetSharePrice none = 1 ∧
    xaccTransGetNum none = none ∧
    xaccTransGetDate none = 0 ∧
    (∀ t : Transaction, xaccTransCountSplits (some t) = .ok t.splits.length) ∧
    xaccTransCountSplits none = .error .nullDeref ∧
    (∀ i : Int, xaccTransGetSplit none i = .ok none) ∧
    (∀ (t : Transaction) (i : Int), i ≤ (t.splits.length : Int) →
      ∃ r, xaccTransGetSplit (some t) i = .ok r) ∧
    (∀ (t : Transaction) (i : Int), (t.splits.length : Int) < i →
      xaccTransGetSplit (some t) i = .error .undefinedRead) := by
  refine ⟨rfl, rfl, rfl, rfl, rfl, fun t => rfl, rfl, fun i => rfl, ?_, ?_⟩
  · intro t i hi
    simp only [xaccTransGetSplit]
    by_cases h0 : i < 0
    · exact ⟨none, by rw [if_pos h0]⟩
    · push_neg at h0
      by_cases hlt : i.toNat < t.splits.length
      · exact ⟨t.splits.get? i.toNat, by rw [if_neg (not_lt.mpr h0), if_pos hlt]⟩
      · have : i.toNat = t.splits.length := by omega
        exact ⟨none, by rw [if_neg (not_lt.mpr h0), if_neg hlt, if_pos this]⟩
  · intro t i hi
    simp only [xaccTransGetSplit]
    rw [if_neg (by omega), if_neg (by omega), if_neg (by omega)]

/-- A concrete one-split transaction for the C9 witness. -/
def tW9 : Transaction :=
  { num := [], description := [], docref := [], splits := [0],
    date_entered := ⟨0, 0⟩, date_posted := ⟨0, 0⟩,
    open_begin := false, open_defer := false }

theorem c9_absent_reads_witness :
    ∃ r, xaccTransGetSplit (some tW9) 1 = .ok r :=
  c9_absent_reads.2.2.2.2.2.2.2.2.1 tW9 1 (by decide)

/-- C5: `xaccTransOrder` applies the keys in the spec's exact order
(presence, posted seconds, posted sub-seconds, num, description — the first
conjunct equates it with the key-chain comparison `specTransOrder`), is
swap-antisymmetric (hence total), transitive in `lt` and in `eq` (a strict
weak order), and orders transactions with chronologically distinct posted
timestamps chronologically. -/
theorem c5_trans_order :
    (∀ ta tb, xaccTransOrder ta tb = specTransOrder ta tb) ∧
    (∀ ta tb, xaccTransOrder tb ta = (xaccTransOrder ta tb).swap) ∧
    (∀ ta tb tc, xaccTransOrder ta tb = .lt → xaccTransOrder tb tc = .lt →
      xaccTransOrder ta tc = .lt) ∧
    (∀ ta tb tc, xaccTransOrder ta tb = .eq → xaccTransOrder tb tc = .eq →
      xaccTransOrder ta tc = .eq) ∧
    (∀ ta tb : Transaction, tsLt ta.date_posted tb.date_posted →
      xaccTransOrder (some ta) (some tb) = .lt) := by
  refine ⟨xaccTransOrder_eq_spec, ?_, ?_, ?_, ?_⟩
  · intro ta tb
    rw [xaccTransOrder_eq_spec, xaccTransOrder_eq_spec]
    exact specTransOrder_lawful.1 ta tb
  · intro ta tb tc h1 h2
    rw [xaccTransOrder_eq_spec] at h1 h2 ⊢
    exact specTransOrder_lawful.2.1 _ _ _ h1 h2
  · intro ta tb tc h1 h2
    rw [xaccTransOrder_eq_spec] at h1 h2 ⊢
    exact specTransOrder_lawful.2.2.1 _ _ _ h1 h2
  · intro ta tb h
    rw [xaccTransOrder_eq_spec]
    show transKeyCmp ta tb = .lt
    unfold transKeyCmp
    rcases h with h | ⟨h1, h2⟩
    · rw [(intCmp_lt_iff _ _).mpr h]; rfl
    · rw [(intCmp_eq_iff _ _).mpr h1, (intCmp_lt_iff _ _).mpr h2]; rfl

/-- Two concrete transactions with distinct posted timestamps for the C5
witness. -/
def tW5a : Transaction :=
  { num := [], description := [], docref := [], splits := [],
    date_entered := ⟨0, 0⟩, date_posted := ⟨5, 0⟩,
    open_begin := false, open_defer := false }

def tW5b : Transaction :=
  { num := [], description := [], docref := [], splits := [],
    date_entered := ⟨0, 0⟩, date_posted := ⟨9, 0⟩,
    open_begin := false, open_defer := false }

theorem c5_trans_order_witness :
    xaccTransOrder (some tW5a) (some tW5b) = .lt :=
  c5_trans_order.2.2.2.2 tW5a tW5b (by decide)

/-- C8 (counterexample to the claim as stated): in `xaccSplitOrder` a
present split sorts before an absent one (`(*sa) && !(*sb)` gives `-1`),
not the other way round. -/
theorem c8_presence_counterexample :
    xaccSplitOrder (some (xaccInitSplit, none)) none = .lt ∧
    xaccSplitOrder none (some (xaccInitSplit, none)) = .gt :=
  ⟨rfl, rfl⟩

/-- C8 (amended): `xaccSplitOrder` first delegates to `xaccTransOrder` on
the two parent transactions and breaks ties by memo then action
(lexicographic); its NULL handling makes the present split sort before the
absent one — the same presence rule the transaction comparison implements. -/
theorem c8_split_order :
    (∀ x, xaccSplitOrder (some x) none = .lt) ∧
    (∀ x, xaccSplitOrder none (some x) = .gt) ∧
    xaccSplitOrder none none = .eq ∧
    (∀ sa pa sb pb, xaccSplitOrder (some (sa, pa)) (some (sb, pb)) =
      (xaccTransOrder pa pb).then
        ((strCmp sa.memo sb.memo).then (strCmp sa.action sb.action))) := by
  refine ⟨fun x => rfl, fun x => rfl, rfl, ?_⟩
  intro sa pa sb pb
  show (match xaccTransOrder pa pb with
        | .eq =>
          match safe_strcmp (some sa.memo) (some sb.memo) with
          | .eq =>
            match safe_strcmp (some sa.action) (some sb.action) with
            | .eq => Ordering.eq
            | o => o
          | o => o
        | o => o) = _
  rcases xaccTransOrder pa pb with _ | _ | _ <;>
    simp only [safe_strcmp, Ordering.then] <;>
    rcases strCmp sa.memo sb.memo with _ | _ | _ <;>
    simp only [Ordering.then] <;>
    rcases strCmp sa.action sb.action with _ | _ | _ <;> rfl

/-! ### Fold lemmas for `markChanged` -/

theorem tArena_foldl_mark (l : List Nat) (st : State) :
    (l.foldl markSplitId st).tArena = st.tArena := by
  induction l generalizing st with
  | nil => rfl
  | cons x xs ih =>
    rw [List.foldl_cons, ih, tArena_markSplitId]

theorem sArena_foldl_mark (l : List Nat) (st : State) :
    (l.foldl markSplitId st).sArena = st.sArena := by
  induction l generalizing st with
  | nil => rfl
  | cons x xs ih =>
    rw [List.foldl_cons, ih, sArena_markSplitId]

theorem accounts_foldl_mark (l : List Nat) (st : State) :
    (l.foldl markSplitId st).accounts = st.accounts := by
  induction l generalizing st with
  | nil => rfl
  | cons x xs ih =>
    rw [List.foldl_cons, ih, accounts_markSplitId]

theorem force_foldl_mark (l : List Nat) (st : State) :
    (l.foldl markSplitId st).force_double_entry = st.force_double_entry := by
  induction l generalizing st with
  | nil => rfl
  | cons x xs ih =>
    rw [List.foldl_cons, ih, force_markSplitId]

theorem getTrans_markChanged (st : State) (t : Transaction) (tid : Nat) :
    getTrans (markChanged st t) tid = getTrans st tid := by
  unfold markChanged
  simp [getTrans, getTransA, tArena_foldl_mark]

/-- C7 (amended): `CHECK_OPEN` only logs, so a field mutation attempted on
a transaction whose edit state is Closed is not rejected: `xaccTransSetNum`
and `xaccTransSetDescription` succeed and perform the mutation even when
both `open` bits are clear. -/
theorem c7_closed_mutation_proceeds (st : State) (tid : Nat)
    (t : Transaction) (xnum desc : Str)
    (h : getTrans st tid = some t)
    (hb : t.open_begin = false) (hd : t.open_defer = false) :
    (∃ st1, xaccTransSetNum st (some tid) xnum = .ok st1 ∧
      getTrans st1 tid = some { t with num := xnum }) ∧
    (∃ st2, xaccTransSetDescription st (some tid) desc = .ok st2 ∧
      getTrans st2 tid = some { t with description := desc }) := by
  constructor
  · refine ⟨markChanged (setTrans st tid { t with num := xnum })
      { t with num := xnum }, ?_, ?_⟩
    · simp only [xaccTransSetNum, h]
    · rw [getTrans_markChanged, getTrans_setTrans_self h]
  · refine ⟨markChanged (setTrans st tid { t with description := desc })
      { t with description := desc }, ?_, ?_⟩
    · simp only [xaccTransSetDescription, h]
    · rw [getTrans_markChanged, getTrans_setTrans_self h]

/-- A concrete closed one-split transaction for the C7 theorems. -/
def tC7 : Transaction :=
  { num := [], description := [], docref := [], splits := [0],
    date_entered := ⟨0, 0⟩, date_posted := ⟨0, 0⟩,
    open_begin := false, open_defer := false }

def stC7 : State :=
  { sArena := [some { xaccInitSplit with parent := some 0 }],
    tArena := [some tC7], accounts := [],
    force_double_entry := false, changed := [], log := [] }

/-- C7 (counterexample to the claim as stated): on the closed transaction
`tC7`, `xaccTransSetNum` does not fail and does not leave the field
unchanged — it performs the mutation. -/
theorem c7_counterexample :
    (xaccTransSetNum stC7 (some 0) ['4','2']).map
      (fun st => (getTrans st 0).map Transaction.num) = .ok (some ['4','2']) := by
  rfl

theorem c7_closed_mutation_proceeds_witness :
    ∃ st1, xaccTransSetNum stC7 (some 0) ['7'] = .ok st1 ∧
      getTrans st1 0 = some { tC7 with num := ['7'] } :=
  (c7_closed_mutation_proceeds stC7 0 tC7 ['7'] [] rfl rfl rfl).1

/-! ### Concrete scenarios -/

/-- The empty initial state. -/
def st0 : State :=
  { sArena := [], tArena := [], accounts := [], force_double_entry := false,
    changed := [], log := [] }

/-- C3: a freshly created transaction (its single source split has quantity
0); a second split is allocated and given quantity 100 at share price 1
(the default); appending it triggers the destination rebalance, which
forces the source split's quantity to −100. -/
theorem c3_append_forces_source :
    ((xaccSplitSetShareAmount (xaccMallocSplit (xaccMallocTransaction st0).2).2
        (some 1) 100).bind
      (fun st2 => xaccTransAppendSplit st2 (some 0) (some 1))).map
      (fun st' => ((getSplit st' 0).map Split.damount,
        (getSplit st' 1).map Split.damount,
        (getTrans st' 0).map Transaction.splits)) =
      .ok (some (-100), some 100, some [0, 1]) := by
  with_unfolding_all rfl

/-- The account, split, transaction and state of the C2 scenario:
enforcement on, one open transaction whose single split (memo `m`, action
`a`) lives in the account `A` with currency `USD`. -/
def accC2 : Account :=
  { accountName := ['A'], currency := ['U','S','D'], security := [],
    accDefer := false }

def splitC2 : Split :=
  { xaccInitSplit with
      acc := some 0, parent := some 0, memo := ['m'], action := ['a'] }

def tC2 : Transaction :=
  { num := [], description := [], docref := [], splits := [0],
    date_entered := ⟨0, 0⟩, date_posted := ⟨0, 0⟩,
    open_begin := true, open_defer := false }

def stC2 : State :=
  { sArena := [some splitC2], tArena := [some tC2], accounts := [accC2],
    force_double_entry := true, changed := [], log := [] }

/-- C2: with enforcement on, setting the single split's quantity to 50
(price 1.0) reaches the auto-create branch of the rebalancer; the cloned
balancing split is appended to the transaction before it is inserted into
the account, so the recursive rebalance meets a split without an account
under enforcement and aborts on `assert (s->acc)` in `ComputeValue` — the
scenario never completes. -/
theorem c2_autocreate_aborts :
    xaccSplitSetShareAmount stC2 (some 0) 50 = .error .contractViolation := by
  rfl

/-- The C6 failing input: a one-split transaction (the split sits in
account `A`). -/
def stC6 : State :=
  { sArena := [some splitC2], tArena := [some tC2], accounts := [accC2],
    force_double_entry := false, changed := [], log := [] }

/-- A two-split balanced transaction for the C6 teardown comparison. -/
def splitC6a : Split :=
  { xaccInitSplit with acc := some 0, parent := some 0, damount := 3 }

def splitC6b : Split :=
  { xaccInitSplit with acc := some 0, parent := some 0, damount := -3 }

def tC6b : Transaction :=
  { num := [], description := [], docref := [], splits := [0, 1],
    date_entered := ⟨0, 0⟩, date_posted := ⟨0, 0⟩,
    open_begin := true, open_defer := false }

def stC6b : State :=
  { sArena := [some splitC6a, some splitC6b], tArena := [some tC6b],
    accounts := [accC2], force_double_entry := false, changed := [], log := [] }

/-- C6: destroying the split of a single-split transaction journals the
Destroy record and detaches the split from its account, but the
`xaccFreeTransaction` call sits inside `if (s)` on the second split, so the
transaction (and its split) are never freed; with two splits the whole
transaction and both splits are freed.  The claim/spec say the transaction
is freed in the single-split case too. -/
theorem c6_single_split_destroy_leaves_transaction :
    (∃ st', xaccSplitDestroy stC6 (some 0) = .ok st' ∧
      st'.log = [(0, 'D')] ∧
      (getTrans st' 0).map Transaction.splits = some [0] ∧
      (getSplit st' 0).map Split.acc = some none) ∧
    (∃ st2, xaccSplitDestroy stC6b (some 0) = .ok st2 ∧
      st2.log = [(0, 'D')] ∧
      getTrans st2 0 = none ∧ getSplit st2 0 = none ∧ getSplit st2 1 = none) :=
  ⟨⟨_, rfl, rfl, rfl, rfl⟩, ⟨_, rfl, rfl, rfl, rfl, rfl⟩⟩

/-- The running total of the splits' values in a base currency, through
`xaccSplitGetBaseValue` (the program's observable read). -/
def sumBaseValues (f : Bool) (sA : List (Option Split))
    (accs : List Account) : List Nat → Option Str → Except Err Rat
  | [], _ => .ok 0
  | sid :: rest, base =>
    match xaccSplitGetBaseValue f sA accs (some sid) base with
    | .error e => .error e
    | .ok v =>
      match sumBaseValues f sA accs rest base with
      | .error e => .error e
      | .ok rv => .ok (v + rv)

/-- The C1 failing input: enforcement on, resolvable base currency `USD`,
but the source split's account carries the `ACC_DEFER_REBALANCE` flag. -/
def accC1x : Account :=
  { accountName := ['A'], currency := ['U','S','D'], security := [],
    accDefer := true }

def splitC1x : Split :=
  { xaccInitSplit with acc := some 0, parent := some 0, damount := 5 }

def stC1x : State :=
  { sArena := [some splitC1x], tArena := [some tC2], accounts := [accC1x],
    force_double_entry := true, changed := [], log := [] }

/-- C1 (counterexample to the claim as stated): enforcement is on and the
splits resolve to the common base currency `USD` (first conjunct), yet
`xaccTransCommitEdit` completes and the sum of the splits' values in that
base currency is 5, not 0 — the rebalance was skipped because the source
split's account is in deferred-rebalance state. -/
theorem c1_commit_defer_counterexample :
    resolveLoop true stC1x.sArena stC1x.accounts [0]
      (some ['U','S','D']) none = .ok (some ['U','S','D'], none) ∧
    (xaccTransCommitEdit stC1x (some 0)).map
      (fun st' => ((getTrans st' 0).map Transaction.splits,
        sumBaseValues st'.force_double_entry st'.sArena st'.accounts [0]
          (some ['U','S','D']))) = .ok (some [0], .ok 5) := by
  constructor
  · rfl
  · with_unfolding_all rfl

/-! ### Soundness of the currency resolver -/

/-- The split (which must be live with a live account) matches the unit `c`
in the resolver's sense: `c` is the account's currency, or its non-empty
security. -/
def splitMatches (sA : List (Option Split)) (accs : List Account)
    (sid : Nat) (c : Str) : Prop :=
  ∃ s, getSplitA sA sid = some s ∧ ∃ aid, s.acc = some aid ∧
    ∃ a, getAccA accs aid = some a ∧
      (a.currency = c ∨ (a.security ≠ [] ∧ a.security = c))

theorem safe_strcmp_secNull_eq {sec c : Str}
    (h : safe_strcmp (some c) (secNull sec) = .eq) : sec ≠ [] ∧ sec = c := by
  unfold secNull at h
  split_ifs at h with he
  · exact absurd h (by simp [safe_strcmp])
  · exact ⟨he, ((safe_strcmp_some_eq_iff c sec).mp h).symm⟩

theorem updateCandidates_sound {sA : List (Option Split)} {accs : List Account}
    {ra rb ra2 rb2 : Option Str} {sid : Nat}
    (hra : ra ≠ none)
    (h : updateCandidates true sA accs ra rb sid = .ok (ra2, rb2)) :
    ra2 ≠ none ∧
    (∀ c, ra2 = some c ∨ rb2 = some c →
      (ra = some c ∨ rb = some c) ∧ splitMatches sA accs sid c) := by
  unfold updateCandidates at h
  rw [if_neg (by simp)] at h
  cases hgs : getSplitA sA sid with
  | none => simp [hgs] at h
  | some s =>
  simp only [hgs] at h
  cases hsacc : s.acc with
  | none => simp [hsacc] at h
  | some aid =>
  simp only [hsacc] at h
  cases hga : getAccA accs aid with
  | none => simp [hga] at h
  | some a =>
  simp only [hga] at h
  have hmc : ∀ c, safe_strcmp (some c) (some a.currency) = .eq →
      splitMatches sA accs sid c := fun c hc =>
    ⟨s, hgs, aid, hsacc, a, hga,
      Or.inl ((safe_strcmp_some_eq_iff c a.currency).mp hc).symm⟩
  have hms : ∀ c, safe_strcmp (some c) (secNull a.security) = .eq →
      splitMatches sA accs sid c := by
    intro c hc
    obtain ⟨hne, he⟩ := safe_strcmp_secNull_eq hc
    exact ⟨s, hgs, aid, hsacc, a, hga, Or.inr ⟨hne, he⟩⟩
  cases ra with
  | none => exact absurd rfl hra
  | some ca =>
  cases rb with
  | none =>
    simp only at h
    by_cases hP : safe_strcmp (some ca) (some a.currency) ≠ .eq ∧
        safe_strcmp (some ca) (secNull a.security) ≠ .eq
    · rw [if_pos hP] at h
      exact absurd h (by simp)
    · rw [if_neg hP] at h
      rw [if_neg (by simp)] at h
      simp only [Except.ok.injEq, Prod.mk.injEq] at h
      obtain ⟨h2, h3⟩ := h
      subst h2; subst h3
      refine ⟨by simp, ?_⟩
      intro c hc
      rcases hc with hc | hc
      · obtain rfl : ca = c := by simpa using hc
        rcases not_and_or.mp hP with haa | hab
        · exact ⟨Or.inl rfl, hmc ca (not_not.mp haa)⟩
        · exact ⟨Or.inl rfl, hms ca (not_not.mp hab)⟩
      · exact absurd hc (by simp)
  | some cb =>
    simp only at h
    by_cases hC1 : safe_strcmp (some ca) (some a.currency) = .eq ∧
        safe_strcmp (some cb) (secNull a.security) ≠ .eq
    · rw [if_pos hC1] at h
      simp at h
      obtain ⟨h2, h3⟩ := h
      subst h2; subst h3
      refine ⟨by simp, ?_⟩
      intro c hc
      rcases hc with hc | hc
      · obtain rfl : ca = c := by simpa using hc
        exact ⟨Or.inl rfl, hmc ca hC1.1⟩
      · exact absurd hc (by simp)
    · rw [if_neg hC1] at h
      by_cases hC2 : safe_strcmp (some ca) (secNull a.security) = .eq ∧
          safe_strcmp (some cb) (some a.currency) ≠ .eq
      · rw [if_pos hC2] at h
        simp at h
        obtain ⟨h2, h3⟩ := h
        subst h2; subst h3
        refine ⟨by simp, ?_⟩
        intro c hc
        rcases hc with hc | hc
        · obtain rfl : ca = c := by simpa using hc
          exact ⟨Or.inl rfl, hms ca hC2.1⟩
        · exact absurd hc (by simp)
      · rw [if_neg hC2] at h
        by_cases hC3 : safe_strcmp (some cb) (some a.currency) = .eq ∧
            safe_strcmp (some ca) (secNull a.security) ≠ .eq
        · rw [if_pos hC3] at h
          simp at h
          obtain ⟨h2, h3⟩ := h
          subst h2; subst h3
          refine ⟨by simp, ?_⟩
          intro c hc
          rcases hc with hc | hc
          · obtain rfl : cb = c := by simpa using hc
            exact ⟨Or.inr rfl, hmc cb hC3.1⟩
          · exact absurd hc (by simp)
        · rw [if_neg hC3] at h
          by_cases hC4 : safe_strcmp (some cb) (secNull a.security) = .eq ∧
              safe_strcmp (some ca) (some a.currency) ≠ .eq
          · rw [if_pos hC4] at h
            simp at h
            obtain ⟨h2, h3⟩ := h
            subst h2; subst h3
            refine ⟨by simp, ?_⟩
            intro c hc
            rcases hc with hc | hc
            · obtain rfl : cb = c := by simpa using hc
              exact ⟨Or.inr rfl, hms cb hC4.1⟩
            · exact absurd hc (by simp)
          · rw [if_neg hC4] at h
            by_cases hC5 : safe_strcmp (some ca) (some a.currency) ≠ .eq ∧
                safe_strcmp (some cb) (secNull a.security) ≠ .eq ∧
                safe_strcmp (some ca) (secNull a.security) ≠ .eq ∧
                safe_strcmp (some cb) (some a.currency) ≠ .eq
            · rw [if_pos hC5] at h
              simp at h
            · rw [if_neg hC5] at h
              simp at h
              obtain ⟨h2, h3⟩ := h
              subst h2; subst h3
              refine ⟨by simp, ?_⟩
              intro c hc
              rcases hc with hc | hc
              · obtain rfl : ca = c := by simpa using hc
                refine ⟨Or.inl rfl, ?_⟩
                by_cases haa : safe_strcmp (some ca) (some a.currency) = .eq
                · exact hmc ca haa
                · by_cases hab : safe_strcmp (some ca) (secNull a.security) = .eq
                  · exact hms ca hab
                  · exact absurd trivial (by tauto)
              · obtain rfl : cb = c := by simpa using hc
                refine ⟨Or.inr rfl, ?_⟩
                by_cases hba : safe_strcmp (some cb) (some a.currency) = .eq
                · exact hmc cb hba
                · by_cases hbb : safe_strcmp (some cb) (secNull a.security) = .eq
                  · exact hms cb hbb
                  · exact absurd trivial (by tauto)

theorem resolveLoop_sound {sA : List (Option Split)} {accs : List Account} :
    ∀ (l : List Nat) (ra rb ra2 rb2 : Option Str),
    ra ≠ none →
    resolveLoop true sA accs l ra rb = .ok (ra2, rb2) →
    ra2 ≠ none ∧
    (∀ c, ra2 = some c ∨ rb2 = some c → (ra = some c ∨ rb = some c)) ∧
    (∀ c, ra2 = some c ∨ rb2 = some c →
      ∀ sid ∈ l, splitMatches sA accs sid c) := by
  intro l
  induction l with
  | nil =>
    intro ra rb ra2 rb2 hra h
    simp only [resolveLoop, Except.ok.injEq, Prod.mk.injEq] at h
    obtain ⟨h1, h2⟩ := h
    subst h1; subst h2
    exact ⟨hra, fun c hc => hc, fun c hc sid hm => absurd hm (by simp)⟩
  | cons x xs ih =>
    intro ra rb ra2 rb2 hra h
    simp only [resolveLoop] at h
    cases hu : updateCandidates true sA accs ra rb x with
    | error e => simp [hu] at h
    | ok p =>
      obtain ⟨ra1, rb1⟩ := p
      simp only [hu] at h
      obtain ⟨hsh, hsound⟩ := updateCandidates_sound hra hu
      obtain ⟨h2sh, horig, hmatch⟩ := ih ra1 rb1 ra2 rb2 hsh h
      refine ⟨h2sh, ?_, ?_⟩
      · intro c hc
        exact (hsound c (horig c hc)).1
      · intro c hc sid hm
        rcases List.mem_cons.mp hm with rfl | hm2
        · exact (hsound c (horig c hc)).2
        · exact hmatch c hc sid hm2

/-- The value a matching split contributes in base currency `c`:
`damount * share_price` when the account currency matches (checked first),
`damount` when the security matches, otherwise 0. -/
def bval (sA : List (Option Split)) (accs : List Account) (c : Str)
    (sid : Nat) : Rat :=
  match getSplitA sA sid with
  | none => 0
  | some s =>
    match s.acc with
    | none => 0
    | some aid =>
      match getAccA accs aid with
      | none => 0
      | some a =>
        if a.currency = c then s.damount * s.share_price
        else if a.security = c then s.damount
        else 0

theorem getBaseValue_matches {sA : List (Option Split)} {accs : List Account}
    {sid : Nat} {c : Str} (f : Bool)
    (h : splitMatches sA accs sid c) :
    xaccSplitGetBaseValue f sA accs (some sid) (some c) =
      .ok (bval sA accs c sid) := by
  obtain ⟨s, hs, aid, hacc, a, hga, hm⟩ := h
  rw [getBaseValue_eval c hs hacc hga]
  unfold bval
  simp only [hs, hacc, hga]
  by_cases hc : a.currency = c
  · rw [if_pos ((safe_strcmp_some_eq_iff _ _).mpr hc), if_pos hc]
  · have hsec : a.security = c := (hm.resolve_left hc).2
    rw [if_neg (by simpa [safe_strcmp_some_eq_iff] using hc),
      if_pos ((safe_strcmp_some_eq_iff _ _).mpr hsec), if_neg hc, if_pos hsec]

theorem ComputeValue_eval {sA : List (Option Split)} {accs : List Account}
    {c : Str} :
    ∀ (l : List Nat) (skip : Nat),
    (∀ sid ∈ l, splitMatches sA accs sid c) →
    ComputeValue true sA accs l skip (some c) =
      .ok (((l.filter (fun x => x ≠ skip)).map (bval sA accs c)).sum) := by
  intro l
  induction l with
  | nil => intro skip _; simp [ComputeValue]
  | cons x xs ih =>
    intro skip hm
    have hx := hm x (by simp)
    have hxs : ∀ sid ∈ xs, splitMatches sA accs sid c :=
      fun sid hs => hm sid (by simp [hs])
    simp only [ComputeValue, ih skip hxs]
    by_cases hsk : x = skip
    · simp [hsk]
    · obtain ⟨s, hs, aid, hacc, a, hga, hmm⟩ := hx
      simp only [if_neg hsk, hs, hacc, hga]
      rw [if_neg (by simp)]
      have hb : bval sA accs c x =
          if a.currency = c then s.damount * s.share_price
          else if a.security = c then s.damount else 0 := by
        unfold bval
        simp only [hs, hacc, hga]
      by_cases hc : a.currency = c
      · rw [if_pos ((safe_strcmp_some_eq_iff _ _).mpr hc)]
        simp [List.filter_cons, hsk, hb, hc, mul_comm, add_comm]
      · have hsec : a.security = c := (hmm.resolve_left hc).2
        rw [if_neg (by simpa [safe_strcmp_some_eq_iff] using hc),
          if_pos ((safe_strcmp_some_eq_iff _ _).mpr hsec)]
        simp [List.filter_cons, hsk, hb, hc, hsec, add_comm]

theorem sumBaseValues_eval {sA : List (Option Split)} {accs : List Account}
    {c : Str} (f : Bool) :
    ∀ l : List Nat,
    (∀ sid ∈ l, splitMatches sA accs sid c) →
    sumBaseValues f sA accs l (some c) =
      .ok ((l.map (bval sA accs c)).sum) := by
  intro l
  induction l with
  | nil => intro _; simp [sumBaseValues]
  | cons x xs ih =>
    intro hm
    have hx := hm x (by simp)
    have hxs : ∀ sid ∈ xs, splitMatches sA accs sid c :=
      fun sid hs => hm sid (by simp [hs])
    simp only [sumBaseValues, getBaseValue_matches f hx, ih hxs, List.map_cons,
      List.sum_cons]

theorem getSplitA_set_self {sA : List (Option Split)} {did : Nat} {d : Split}
    (h : getSplitA sA did = some d) (d' : Split) :
    getSplitA (sA.set did (some d')) did = some d' := by
  have hl : did < sA.length := by
    by_contra hn
    simp only [getSplitA, List.get?_eq_none.mpr (le_of_not_lt hn)] at h
    exact Option.noConfusion h
  simp [getSplitA, List.getElem?_set_eq_of_lt _ hl]

theorem getSplitA_set_ne {sA : List (Option Split)} {did x : Nat}
    (hne : did ≠ x) (v : Option Split) :
    getSplitA (sA.set did v) x = getSplitA sA x := by
  simp [getSplitA, List.getElem?_set_ne hne]

theorem splitMatches_set_ne {sA : List (Option Split)} {accs : List Account}
    {did x : Nat} {c : Str} (hne : did ≠ x) (v : Option Split)
    (h : splitMatches sA accs x c) : splitMatches (sA.set did v) accs x c := by
  obtain ⟨s, hs, rest⟩ := h
  exact ⟨s, by rw [getSplitA_set_ne hne]; exact hs, rest⟩

theorem bval_set_ne {sA : List (Option Split)} {accs : List Account}
    {c : Str} {did x : Nat} (hne : did ≠ x) (v : Option Split) :
    bval (sA.set did v) accs c x = bval sA accs c x := by
  unfold bval
  rw [getSplitA_set_ne hne]

theorem splitMatches_set_self {sA : List (Option Split)} {accs : List Account}
    {did : Nat} {c : Str} {d d' : Split}
    (hd : getSplitA sA did = some d) (hacc : d'.acc = d.acc)
    (h : splitMatches sA accs did c) :
    splitMatches (sA.set did (some d')) accs did c := by
  obtain ⟨s, hs, aid, hsacc, a, hga, hm⟩ := h
  have hsd : s = d := by rw [hs] at hd; exact Option.some.inj hd
  subst hsd
  exact ⟨d', getSplitA_set_self hd d', aid, by rw [hacc]; exact hsacc, a, hga, hm⟩

theorem rebalResolve_go {st : State} {s0 : Split} {t : Transaction}
    {aid0 : Nat} {acc0 : Account} {base : Str} {rbv : Option Str}
    (hacc : s0.acc = some aid0)
    (hgacc : getAcc st aid0 = some acc0)
    (hnodefer : acc0.accDefer = false)
    (hne : t.splits ≠ [])
    (hres : resolveLoop true st.sArena st.accounts t.splits
        (some acc0.currency) (secNull acc0.security) = .ok (some base, rbv)) :
    rebalResolve true st.sArena st.accounts s0 t = .ok (.go (some base)) := by
  unfold rebalResolve
  simp only [hacc]
  have hga0 : getAccA st.accounts aid0 = some acc0 := hgacc
  simp only [hga0, hnodefer, Bool.false_eq_true, if_false, if_neg hne, hres]

/-- Rebalancing from a source split that has a destination: evaluates to a
state whose splits sum to zero in the resolved base currency. -/
theorem rebalance_source_dest_sum {st : State} {s0id : Nat} {s0 : Split}
    {tid : Nat} {t : Transaction} {dest : Nat} {drest : List Nat}
    {aid0 : Nat} {acc0 : Account} {base : Str} {rbv : Option Str} (fuel : Nat)
    (hforce : st.force_double_entry = true)
    (hs0 : getSplit st s0id = some s0)
    (hpar : s0.parent = some tid)
    (ht : getTrans st tid = some t)
    (hdefer : t.open_defer = false)
    (hsplits : t.splits = s0id :: dest :: drest)
    (hnodup : t.splits.Nodup)
    (hacc : s0.acc = some aid0)
    (hgacc : getAcc st aid0 = some acc0)
    (hnodefer : acc0.accDefer = false)
    (hres : resolveLoop true st.sArena st.accounts t.splits
        (some acc0.currency) (secNull acc0.security) = .ok (some base, rbv))
    (hdestp : ∀ d ad a, getSplit st dest = some d → d.acc = some ad →
      getAcc st ad = some a → a.currency = base → d.share_price ≠ 0) :
    ∃ st2, xaccSplitRebalanceF (fuel + 1) st (some s0id) = .ok st2 ∧
      st2.sArena.length = st.sArena.length ∧
      st2.accounts = st.accounts ∧
      st2.tArena = st.tArena ∧
      st2.force_double_entry = st.force_double_entry ∧
      sumBaseValues true st2.sArena st2.accounts t.splits (some base) =
        .ok 0 := by
  -- the splits the resolver saw all match the resolved base currency
  have hmatches : ∀ sid ∈ t.splits, splitMatches st.sArena st.accounts sid base := by
    obtain ⟨_, _, hm⟩ := resolveLoop_sound t.splits (some acc0.currency)
      (secNull acc0.security) (some base) rbv (by simp) hres
    exact hm base (Or.inl rfl)
  -- the destination split
  have hdm := hmatches dest (by simp [hsplits])
  obtain ⟨d, hd, ad, hdacc, a, hga, hm⟩ := hdm
  -- the resolver head evaluates to `go base`
  have hresolve : rebalResolve true st.sArena st.accounts s0 t = .ok (.go (some base)) :=
    rebalResolve_go hacc hgacc hnodefer (by simp [hsplits]) hres
  -- the total the rebalancer computes
  have hcv : ComputeValue true st.sArena st.accounts t.splits dest (some base) =
      .ok (((t.splits.filter (fun x => x ≠ dest)).map
        (bval st.sArena st.accounts base)).sum) :=
    ComputeValue_eval t.splits dest hmatches
  -- names for the running total
  have hh : s0id ∉ dest :: drest ∧ dest ∉ drest ∧ drest.Nodup := by
    have h2 := hnodup
    rw [hsplits, List.nodup_cons, List.nodup_cons] at h2
    exact ⟨h2.1, h2.2.1, h2.2.2⟩
  have hneq0 : s0id ≠ dest := fun he => hh.1 (by simp [he])
  have hnodrest : dest ∉ drest := hh.2.1
  have hfilter : t.splits.filter (fun x => x ≠ dest) = s0id :: drest := by
    rw [hsplits]
    simp only [List.filter_cons]
    rw [if_pos (by simp [hneq0]), if_neg (by simp)]
    congr 1
    exact List.filter_eq_self.mpr (fun x hx => by
      simp
      exact fun he => hnodrest (he ▸ hx))
  set V : Rat := ((t.splits.filter (fun x => x ≠ dest)).map
    (bval st.sArena st.accounts base)).sum with hV
  have hkey : ∃ d' : Split, d'.acc = d.acc ∧
      xaccSplitSetBaseValue st (some dest) (-V) (some base) =
        .ok (setSplit st dest d') ∧
      bval (st.sArena.set dest (some d')) st.accounts base dest = -V := by
    by_cases hc : a.currency = base
    · refine ⟨{ d with damount := -V / d.share_price }, rfl, ?_, ?_⟩
      · rw [setBaseValue_eval (-V) base hd hdacc hga,
          if_pos ((safe_strcmp_some_eq_iff _ _).mpr hc)]
      · unfold bval
        simp only [getSplitA_set_self hd _, hdacc, hga, if_pos hc]
        exact div_mul_cancel₀ _ (hdestp d ad a hd hdacc hga hc)
    · have hsec : a.security = base := (hm.resolve_left hc).2
      refine ⟨{ d with damount := -V }, rfl, ?_, ?_⟩
      · rw [setBaseValue_eval (-V) base hd hdacc hga,
          if_neg (by simpa [safe_strcmp_some_eq_iff] using hc),
          if_pos ((safe_strcmp_some_eq_iff _ _).mpr hsec)]
      · unfold bval
        simp only [getSplitA_set_self hd _, hdacc, hga, if_neg hc, if_pos hsec]
  obtain ⟨d', hdacc', hset, hbd⟩ := hkey
  have hcv2 : ComputeValue true st.sArena st.accounts t.splits dest (some base) =
      .ok V := hcv
  have hreb : xaccSplitRebalanceF (fuel + 1) st (some s0id) =
      .ok (markSplitId (setSplit st dest d') dest) := by
    simp only [xaccSplitRebalanceF, hs0, hpar, ht, hdefer, hforce, hresolve,
      hsplits, Bool.false_eq_true, if_false, if_pos rfl]
    rw [← hsplits]
    simp only [hcv2, hset, xaccAccountRecomputeBalance, if_true]
  refine ⟨markSplitId (setSplit st dest d') dest, hreb, ?_, ?_, ?_, ?_, ?_⟩
  · rw [sArena_markSplitId]
    simp [setSplit]
  · rw [accounts_markSplitId]
    rfl
  · rw [tArena_markSplitId]
    rfl
  · rw [force_markSplitId]
    rfl
  · have hsA : (markSplitId (setSplit st dest d') dest).sArena =
        st.sArena.set dest (some d') := by
      rw [sArena_markSplitId]
      rfl
    have haccs : (markSplitId (setSplit st dest d') dest).accounts =
        st.accounts := by
      rw [accounts_markSplitId]
      rfl
    rw [hsA, haccs]
    have hmatches2 : ∀ sid ∈ t.splits,
        splitMatches (st.sArena.set dest (some d')) st.accounts sid base := by
      intro sid hs
      by_cases hde : dest = sid
      · subst hde
        exact splitMatches_set_self hd hdacc' (hmatches dest hs)
      · exact splitMatches_set_ne hde _ (hmatches sid hs)
    rw [sumBaseValues_eval true t.splits hmatches2]
    have hbv0 : bval (st.sArena.set dest (some d')) st.accounts base s0id =
        bval st.sArena st.accounts base s0id :=
      bval_set_ne (fun he => hneq0 he.symm) _
    have hbvdrest : drest.map (bval (st.sArena.set dest (some d')) st.accounts base) =
        drest.map (bval st.sArena st.accounts base) :=
      List.map_congr_left (fun x hx =>
        bval_set_ne (fun he => hnodrest (by rw [he]; exact hx)) _)
    have hVval : V = bval st.sArena st.accounts base s0id +
        (drest.map (bval st.sArena st.accounts base)).sum := by
      rw [hV, hfilter]
      simp
    rw [hsplits]
    simp only [List.map_cons, List.sum_cons, hbv0, hbd, hbvdrest]
    rw [hVval]
    congr 1
    ring


/-- The balancing split created by the auto-create branch for source `s0`. -/
def autoSplit (s0 : Split) : Split :=
  { xaccInitSplit with
      damount := -(s0.share_price * s0.damount)
      memo := s0.memo
      action := s0.action }

/-- Rebalancing triggered by an account-less destination split under
enforcement aborts inside `ComputeValue` (`assert (s->acc)`). -/
theorem rebalance_accountless_dest_errors {st4 : State} {tid nid s0id : Nat}
    {ns2 : Split} {t4 : Transaction} (fuel : Nat)
    (hforce : st4.force_double_entry = true)
    (hgs : getSplit st4 nid = some ns2)
    (hpar : ns2.parent = some tid)
    (hgt : getTrans st4 tid = some t4)
    (hdefer : t4.open_defer = false)
    (hsplits : t4.splits = [s0id, nid])
    (hacc : ns2.acc = none)
    (hneq : s0id ≠ nid) :
    xaccSplitRebalanceF (fuel + 1) st4 (some nid) =
      .error .contractViolation := by
  have hrr : rebalResolve true st4.sArena st4.accounts ns2 t4 =
      .ok (.go none) := by
    unfold rebalResolve
    simp [hacc, hsplits]
  have hcv : ComputeValue true st4.sArena st4.accounts t4.splits s0id none =
      .error .contractViolation := by
    rw [hsplits]
    simp only [ComputeValue]
    rw [if_neg (fun h => hneq h.symm)]
    have hgsA : getSplitA st4.sArena nid = some ns2 := hgs
    simp only [hgsA]
    simp [hacc]
  simp only [xaccSplitRebalanceF, hgs, hpar, hgt, hdefer, hforce, hrr,
    Bool.false_eq_true, if_false]
  simp only [hsplits]
  rw [if_neg (fun h => hneq h.symm)]
  rw [← hsplits]
  simp only [hcv]

/-- Appending an account-less split to a one-split transaction under
enforcement aborts: the rebalance of the appended split reaches
`ComputeValue`, which requires an account under enforcement. -/
theorem append_accountless_errors {stB : State} {tid nid s0id : Nat}
    {ns : Split} {t : Transaction} (fuel : Nat)
    (hforce : stB.force_double_entry = true)
    (hgt : getTrans stB tid = some t)
    (hdefer : t.open_defer = false)
    (hsplits : t.splits = [s0id])
    (hgs : getSplit stB nid = some ns)
    (hnsacc : ns.acc = none)
    (hnspar : ns.parent = none)
    (hneq : s0id ≠ nid) :
    xaccTransAppendSplitF (fuel + 2) stB (some tid) (some nid) =
      .error .contractViolation := by
  have hgs3 : getSplit (setSplit stB nid { ns with parent := some tid }) nid =
      some { ns with parent := some tid } := getSplit_setSplit_self hgs _
  have hgt3 : getTrans (setSplit stB nid { ns with parent := some tid }) tid =
      some t := hgt
  have hgt4 : getTrans (setTrans (setSplit stB nid { ns with parent := some tid })
      tid { t with splits := t.splits ++ [nid] }) tid =
      some { t with splits := t.splits ++ [nid] } :=
    getTrans_setTrans_self hgt3 _
  have hgs4 : getSplit (setTrans (setSplit stB nid { ns with parent := some tid })
      tid { t with splits := t.splits ++ [nid] }) nid =
      some { ns with parent := some tid } := hgs3
  have hinner : xaccSplitRebalanceF (fuel + 1)
      (setTrans (setSplit stB nid { ns with parent := some tid })
        tid { t with splits := t.splits ++ [nid] }) (some nid) =
      .error .contractViolation :=
    rebalance_accountless_dest_errors fuel hforce hgs4 rfl hgt4 hdefer
      (by simp [hsplits]) hnsacc hneq
  simp only [xaccTransAppendSplitF, hgt, hgs, hnspar, hgs4, hgt3, hinner]

/-- The freshly allocated balancing split sits at the end of the arena, has
no account, and is marked a no-op; appending it then aborts. -/
theorem autocreate_append_errors {st : State} {tid s0id : Nat}
    {t : Transaction} {ns : Split} (fuel : Nat)
    (hforce : st.force_double_entry = true)
    (hgt : getTrans st tid = some t)
    (hdefer : t.open_defer = false)
    (hsplits : t.splits = [s0id])
    (hacc : ns.acc = none)
    (hpar : ns.parent = none)
    (hlt : s0id < st.sArena.length) :
    xaccTransAppendSplitF (fuel + 2)
      (markSplitId { st with sArena := st.sArena ++ [some ns] }
        st.sArena.length)
      (some tid) (some st.sArena.length) = .error .contractViolation := by
  have hfresh : getSplit { st with sArena := st.sArena ++ [some ns] }
      st.sArena.length = some ns := by
    show getSplitA (st.sArena ++ [some ns]) st.sArena.length = some ns
    unfold getSplitA
    rw [List.get?_concat_length]
    rfl
  have hmark : markSplitId { st with sArena := st.sArena ++ [some ns] }
      st.sArena.length = { st with sArena := st.sArena ++ [some ns] } := by
    simp only [markSplitId, hfresh, markSplit, hacc]
  rw [hmark]
  exact append_accountless_errors fuel hforce hgt hdefer hsplits hfresh hacc
    hpar (Nat.ne_of_lt hlt)

/-- Under enforcement, the auto-create branch always aborts: the balancing
split is appended before it is inserted into any account, and the recursive
rebalance of the appended split finds it account-less under enforcement
(`assert (s->acc)` inside `ComputeValue`). -/
theorem rebalance_autocreate_errors {st : State} {s0id : Nat} {s0 : Split}
    {tid : Nat} {t : Transaction} {aid0 : Nat} {acc0 : Account}
    {base : Str} {rbv : Option Str} (fuel : Nat)
    (hforce : st.force_double_entry = true)
    (hs0 : getSplit st s0id = some s0)
    (hpar : s0.parent = some tid)
    (ht : getTrans st tid = some t)
    (hdefer : t.open_defer = false)
    (hsplits : t.splits = [s0id])
    (hacc : s0.acc = some aid0)
    (hgacc : getAcc st aid0 = some acc0)
    (hnodefer : acc0.accDefer = false)
    (hres : resolveLoop true st.sArena st.accounts t.splits
        (some acc0.currency) (secNull acc0.security) = .ok (some base, rbv))
    (hdam : ¬ s0.damount = 0) :
    xaccSplitRebalanceF (fuel + 3) st (some s0id) =
      .error .contractViolation := by
  have hresolve : rebalResolve true st.sArena st.accounts s0 t =
      .ok (.go (some base)) :=
    rebalResolve_go hacc hgacc hnodefer (by simp [hsplits]) hres
  have hneq : s0id ≠ st.sArena.length :=
    Nat.ne_of_lt (getSplit_lt hs0)
  simp only [xaccSplitRebalanceF, hs0, hpar, ht, hdefer, hsplits,
    Bool.false_eq_true, if_false]
  rw [hforce]
  simp only [hresolve, if_pos rfl, if_true, if_neg hdam, allocSplit]
  split
  next e heq =>
    exact ((autocreate_append_errors fuel hforce ht hdefer hsplits (by rfl)
      (by rfl) (getSplit_lt hs0)).symm.trans heq).symm
  next stC heq =>
    exact Except.noConfusion ((autocreate_append_errors fuel hforce ht hdefer
      hsplits (by rfl) (by rfl) (getSplit_lt hs0)).symm.trans heq)

/-- C1: with double-entry enforcement on, a resolvable common base currency,
the source split's account not deferring rebalance, and a destination whose
share price is non-zero when matched through the currency slot, a completed
`xaccTransCommitEdit` leaves the transaction's splits summing to zero in
the resolved base currency. -/
theorem c1_commit_zero_sum {st : State} {tid : Nat} {t : Transaction}
    {s0id : Nat} {rest : List Nat} {s0 : Split} {aid0 : Nat} {acc0 : Account}
    {base : Str} {rbv : Option Str} {st' : State}
    (hforce : st.force_double_entry = true)
    (ht : getTrans st tid = some t)
    (hsplits : t.splits = s0id :: rest)
    (hnodup : t.splits.Nodup)
    (hs0 : getSplit st s0id = some s0)
    (hpar : s0.parent = some tid)
    (hacc : s0.acc = some aid0)
    (hgacc : getAcc st aid0 = some acc0)
    (hnodefer : acc0.accDefer = false)
    (hres : resolveLoop true st.sArena st.accounts t.splits
        (some acc0.currency) (secNull acc0.security) = .ok (some base, rbv))
    (hdestp : ∀ dest ∈ rest.take 1, ∀ d ad a, getSplit st dest = some d →
      d.acc = some ad → getAcc st ad = some a → a.currency = base →
      d.share_price ≠ 0)
    (hcommit : xaccTransCommitEdit st (some tid) = .ok st') :
    ∃ t', getTrans st' tid = some t' ∧ t'.splits = t.splits ∧
      sumBaseValues st'.force_double_entry st'.sArena st'.accounts
        t'.splits (some base) = .ok 0 := by
  have hforce1 : (setTrans st tid { t with open_defer := false
      }).force_double_entry = true := hforce
  have hs0' : getSplit (setTrans st tid { t with open_defer := false }) s0id =
      some s0 := hs0
  have ht1 : getTrans (setTrans st tid { t with open_defer := false }) tid =
      some { t with open_defer := false } := getTrans_setTrans_self ht _
  have hgacc1 : getAcc (setTrans st tid { t with open_defer := false }) aid0 =
      some acc0 := hgacc
  have hres1 : resolveLoop true
      (setTrans st tid { t with open_defer := false }).sArena
      (setTrans st tid { t with open_defer := false }).accounts
      ({ t with open_defer := false } : Transaction).splits
      (some acc0.currency) (secNull acc0.security) = .ok (some base, rbv) :=
    hres
  have hsplits1 : ({ t with open_defer := false } : Transaction).splits =
      s0id :: rest := hsplits
  have hnodup1 : ({ t with open_defer := false } : Transaction).splits.Nodup :=
    hnodup
  have hhead : t.splits.head? = some s0id := by
    rw [hsplits]
    rfl
  simp only [xaccTransCommitEdit, ht, xaccTransRebalanceF, ht1, hhead]
    at hcommit
  cases rest with
  | cons dest drest =>
    obtain ⟨st2, hreb0, hlen2, haccs2, htA2, hforce2, hsum⟩ :=
      rebalance_source_dest_sum 7 hforce1 hs0' hpar ht1 rfl hsplits1 hnodup1
        hacc hgacc1 hnodefer hres1
        (hdestp dest (by simp))
    have hreb : xaccSplitRebalanceF rebalanceFuel
        (setTrans st tid { t with open_defer := false }) (some s0id) =
        .ok st2 := hreb0
    simp only [hreb] at hcommit
    have hgt2 : getTrans st2 tid = some { t with open_defer := false } := by
      show getTransA st2.tArena tid = _
      rw [htA2]
      exact ht1
    simp only [hgt2, Except.ok.injEq] at hcommit
    subst hcommit
    refine ⟨{ t with open_begin := false, open_defer := false },
      getTrans_setTrans_self hgt2 _, rfl, ?_⟩
    show sumBaseValues st2.force_double_entry st2.sArena st2.accounts
      ({ t with open_defer := false } : Transaction).splits (some base) = .ok 0
    rw [show st2.force_double_entry = true from by rw [hforce2]; exact hforce]
    exact hsum
  | nil =>
    have hne1 : ({ t with open_defer := false } : Transaction).splits ≠ [] := by
      show t.splits ≠ []
      rw [hsplits]
      simp
    have hresolve : rebalResolve true
        (setTrans st tid { t with open_defer := false }).sArena
        (setTrans st tid { t with open_defer := false }).accounts s0
        { t with open_defer := false } = .ok (.go (some base)) :=
      rebalResolve_go hacc hgacc1 hnodefer hne1 hres1
    by_cases hdam : s0.damount = 0
    · have hreb : xaccSplitRebalanceF rebalanceFuel
          (setTrans st tid { t with open_defer := false }) (some s0id) =
          .ok (setTrans st tid { t with open_defer := false }) := by
        show xaccSplitRebalanceF (7 + 1) _ _ = _
        simp only [xaccSplitRebalanceF, hs0', hpar, ht1, hforce1, hresolve,
          Bool.false_eq_true, if_false]
        rw [hsplits]
        simp [setTrans, hforce, hdam]
      simp only [hreb, ht1, Except.ok.injEq] at hcommit
      subst hcommit
      refine ⟨{ t with open_begin := false, open_defer := false },
        getTrans_setTrans_self ht1 _, rfl, ?_⟩
      show sumBaseValues st.force_double_entry st.sArena st.accounts
        ({ t with open_defer := false } : Transaction).splits (some base) =
        .ok 0
      have hml : ∀ sid ∈ [s0id], splitMatches st.sArena st.accounts sid base := by
        obtain ⟨_, _, hm⟩ := resolveLoop_sound t.splits (some acc0.currency)
          (secNull acc0.security) (some base) rbv (by simp) hres
        intro sid hs
        rw [List.mem_singleton] at hs
        subst hs
        exact hm base (Or.inl rfl) sid (by rw [hsplits]; simp)
      have hb0 : bval st.sArena st.accounts base s0id = 0 := by
        have hsA : getSplitA st.sArena s0id = some s0 := hs0
        have hgA : getAccA st.accounts aid0 = some acc0 := hgacc
        unfold bval
        simp only [hsA, hacc, hgA, hdam]
        split_ifs <;> ring
      rw [hforce]
      show sumBaseValues true st.sArena st.accounts t.splits (some base) = .ok 0
      rw [hsplits, sumBaseValues_eval true [s0id] hml]
      simp [hb0]
    · have herr : xaccSplitRebalanceF rebalanceFuel
          (setTrans st tid { t with open_defer := false }) (some s0id) =
          .error .contractViolation :=
        rebalance_autocreate_errors 5 hforce1 hs0' hpar ht1 rfl hsplits1 hacc
          hgacc1 hnodefer hres1 hdam
      simp only [herr] at hcommit
      exact Except.noConfusion hcommit

/-- The C1 witness fixture: enforcement on, one USD account holding both
splits (quantities 5 and 7, unit prices), an open two-split transaction. -/
def accW1 : Account :=
  { accountName := ['A'], currency := ['U','S','D'], security := [],
    accDefer := false }

def s0W1 : Split :=
  { xaccInitSplit with acc := some 0, parent := some 0, damount := 5 }

def s1W1 : Split :=
  { xaccInitSplit with acc := some 0, parent := some 0, damount := 7 }

def tW1 : Transaction :=
  { num := [], description := [], docref := [], splits := [0, 1],
    date_entered := ⟨0, 0⟩, date_posted := ⟨0, 0⟩,
    open_begin := true, open_defer := false }

def stW1 : State :=
  { sArena := [some s0W1, some s1W1], tArena := [some tW1],
    accounts := [accW1], force_double_entry := true, changed := [], log := [] }

/-- The state `xaccTransCommitEdit` produces on the C1 witness fixture: the
destination split is forced to quantity `-5`, the transaction is closed,
its account marked changed and the commit journaled. -/
def stW1f : State :=
  { sArena := [some s0W1, some { s1W1 with damount := -5 }],
    tArena := [some { tW1 with open_begin := false, open_defer := false }],
    accounts := [accW1], force_double_entry := true, changed := [0],
    log := [(0, 'C')] }

/-- C1 witness: on the concrete fixture the committed transaction's splits
sum to zero in the resolved base currency `USD`. -/
theorem c1_commit_zero_sum_witness :
    ∃ t', getTrans stW1f 0 = some t' ∧ t'.splits = tW1.splits ∧
      sumBaseValues stW1f.force_double_entry stW1f.sArena stW1f.accounts
        t'.splits (some ['U','S','D']) = .ok 0 :=
  c1_commit_zero_sum (rfl : stW1.force_double_entry = true) rfl rfl
    (by decide) rfl rfl rfl rfl rfl
    (by with_unfolding_all rfl)
    (by
      intro dest hdest d ad a hd hdacc hga hc
      have hdm : dest = 1 := by simpa using hdest
      subst hdm
      have h2 : getSplit stW1 1 = some s1W1 := rfl
      rw [h2] at hd
      have hds : d = s1W1 := (Option.some.inj hd).symm
      subst hds
      decide)
    (by with_unfolding_all rfl)

/-! ### The parent/membership invariant (C4) -/

/-- The C4 invariant: every split listed in a transaction's sequence is live
and points back to that transaction, and every live split with a parent
pointer is listed by that (live) transaction. -/
def WF (st : State) : Prop :=
  (∀ tid t, getTrans st tid = some t → ∀ sid ∈ t.splits,
    ∃ s, getSplit st sid = some s ∧ s.parent = some tid) ∧
  (∀ sid s tid, getSplit st sid = some s → s.parent = some tid →
    ∃ t, getTrans st tid = some t ∧ sid ∈ t.splits)

/-- Executable check of `WF` (both arenas are finite). -/
def WFb (st : State) : Bool :=
  ((List.range st.tArena.length).all fun tid =>
    match getTrans st tid with
    | none => true
    | some t => t.splits.all fun sid =>
        match getSplit st sid with
        | some s => s.parent == some tid
        | none => false) &&
  ((List.range st.sArena.length).all fun sid =>
    match getSplit st sid with
    | none => true
    | some s =>
      match s.parent with
      | none => true
      | some tid =>
        match getTrans st tid with
        | none => false
        | some t => t.splits.contains sid)

theorem WF_of_WFb {st : State} (h : WFb st = true) : WF st := by
  unfold WFb at h
  rw [Bool.and_eq_true, List.all_eq_true, List.all_eq_true] at h
  obtain ⟨h1, h2⟩ := h
  constructor
  · intro tid t hgt sid hs
    have h3 := h1 tid (List.mem_range.mpr (getTrans_lt hgt))
    simp only [hgt] at h3
    rw [List.all_eq_true] at h3
    have h4 := h3 sid hs
    cases hgs : getSplit st sid with
    | none => rw [hgs] at h4; exact absurd h4 (by simp)
    | some s =>
      rw [hgs] at h4
      exact ⟨s, rfl, by simpa using h4⟩
  · intro sid s tid hgs hp
    have h3 := h2 sid (List.mem_range.mpr (getSplit_lt hgs))
    simp only [hgs, hp] at h3
    cases hgt : getTrans st tid with
    | none => rw [hgt] at h3; exact absurd h3 (by simp)
    | some t =>
      rw [hgt] at h3
      exact ⟨t, rfl, by simpa using h3⟩

theorem map_parent_eq_some {o : Option Split} {p : Option Nat}
    (h : o.map Split.parent = some p) :
    ∃ s, o = some s ∧ s.parent = p := by
  cases o with
  | none => exact absurd h (by simp)
  | some s => exact ⟨s, rfl, by simpa using h⟩

/-- A state with the same transactions, the same split liveness and the
same split parents satisfies `WF` whenever the original does. -/
theorem WF_transfer {st st' : State}
    (htA : st'.tArena = st.tArena)
    (hp : ∀ x, (getSplit st' x).map Split.parent =
      (getSplit st x).map Split.parent)
    (h : WF st) : WF st' := by
  obtain ⟨w1, w2⟩ := h
  have hgt : ∀ tid, getTrans st' tid = getTrans st tid := by
    intro tid
    show getTransA st'.tArena tid = getTransA st.tArena tid
    rw [htA]
  constructor
  · intro tid t hgtI sid hs
    obtain ⟨s, hgs, hsp⟩ := w1 tid t ((hgt tid).symm.trans hgtI) sid hs
    have hm := hp sid
    rw [hgs] at hm
    obtain ⟨s', hgs', hp'⟩ := map_parent_eq_some hm
    exact ⟨s', hgs', hp'.trans hsp⟩
  · intro sid s' tid hg' hp'
    have hm := hp sid
    rw [hg'] at hm
    obtain ⟨s, hgs, hpe⟩ := map_parent_eq_some hm.symm
    obtain ⟨t, hgt2, hmem⟩ := w2 sid s tid hgs (hpe ▸ hp')
    exact ⟨t, (hgt tid).trans hgt2, hmem⟩

/-- A live parentless split is in no transaction's sequence. -/
theorem not_member_of_parent_none {st : State} {sid : Nat} {s : Split}
    (hWF : WF st) (hgs : getSplit st sid = some s) (hp : s.parent = none) :
    ∀ tid2 t2, getTrans st tid2 = some t2 → sid ∉ t2.splits := by
  intro tid2 t2 hgt2 hmem
  obtain ⟨s3, hgs3, hp3⟩ := hWF.1 tid2 t2 hgt2 sid hmem
  rw [hgs] at hgs3
  obtain rfl := Option.some.inj hgs3
  rw [hp] at hp3
  exact Option.noConfusion hp3

/-- A successful `xaccSplitSetBaseValue` either leaves the state unchanged
or rewrites the target split's quantity only. -/
theorem setBaseValue_ok_shape {st st1 : State} {sid : Nat} {v : Rat}
    {b : Option Str} (h : xaccSplitSetBaseValue st (some sid) v b = .ok st1) :
    st1 = st ∨ ∃ s w, getSplit st sid = some s ∧
      st1 = setSplit st sid { s with damount := w } := by
  unfold xaccSplitSetBaseValue at h
  cases hgs : getSplit st sid with
  | none => simp [hgs] at h
  | some s =>
  simp only [hgs] at h
  split at h
  · split_ifs at h with hf
    exact Or.inr ⟨s, v / s.share_price, rfl, (Except.ok.inj h).symm⟩
  · split at h
    · exact Except.noConfusion h
    · split_ifs at h with h1 h2 h3
      · exact Or.inr ⟨s, v / s.share_price, rfl, (Except.ok.inj h).symm⟩
      · exact Or.inr ⟨s, v, rfl, (Except.ok.inj h).symm⟩
      · exact Or.inr ⟨s, v / s.share_price, rfl, (Except.ok.inj h).symm⟩
      · exact Or.inl (Except.ok.inj h).symm

/-- For every fuel value the append issued by the auto-create branch fails:
out of fuel below two, and by `append_accountless_errors` otherwise. -/
theorem autocreate_append_never_ok {st : State} {tid s0id : Nat}
    {t : Transaction} {ns : Split} (fuel : Nat)
    (hforce : st.force_double_entry = true)
    (hgt : getTrans st tid = some t)
    (hdefer : t.open_defer = false)
    (hsplits : t.splits = [s0id])
    (hacc : ns.acc = none)
    (hpar : ns.parent = none)
    (hlt : s0id < st.sArena.length) :
    ∀ stC, xaccTransAppendSplitF fuel
      (markSplitId { st with sArena := st.sArena ++ [some ns] }
        st.sArena.length)
      (some tid) (some st.sArena.length) ≠ .ok stC := by
  match fuel with
  | 0 =>
    intro stC h
    exact Except.noConfusion h
  | 1 =>
    intro stC h
    have hfresh : getSplit { st with sArena := st.sArena ++ [some ns] }
        st.sArena.length = some ns := by
      show getSplitA (st.sArena ++ [some ns]) st.sArena.length = some ns
      unfold getSplitA
      rw [List.get?_concat_length]
      rfl
    have hmark : markSplitId { st with sArena := st.sArena ++ [some ns] }
        st.sArena.length = { st with sArena := st.sArena ++ [some ns] } := by
      simp only [markSplitId, hfresh, markSplit, hacc]
    rw [hmark] at h
    have hgtA : getTrans { st with sArena := st.sArena ++ [some ns] } tid =
        some t := hgt
    have hgt3 : getTrans (setSplit { st with sArena := st.sArena ++ [some ns] }
        st.sArena.length { ns with parent := some tid }) tid = some t := hgt
    simp only [xaccTransAppendSplitF, hgtA, hfresh, hpar, hgt3,
      xaccSplitRebalanceF] at h
    exact Except.noConfusion h
  | (n + 2) =>
    intro stC h
    rw [autocreate_append_errors n hforce hgt hdefer hsplits hacc hpar hlt]
      at h
    exact Except.noConfusion h

/-- A successful rebalance leaves the transactions untouched and preserves
every split's liveness and parent pointer: the only state it may write is a
destination quantity (the auto-create branch never completes). -/
theorem rebalance_ok_shape {fuel : Nat} {st st' : State} {sid? : Option Nat}
    (h : xaccSplitRebalanceF fuel st sid? = .ok st') :
    st'.tArena = st.tArena ∧
    ∀ x, (getSplit st' x).map Split.parent =
      (getSplit st x).map Split.parent := by
  match fuel with
  | 0 => exact Except.noConfusion h
  | Nat.succ n =>
  cases sid? with
  | none => exact Except.noConfusion h
  | some sid =>
  simp only [xaccSplitRebalanceF] at h
  cases hgs : getSplit st sid with
  | none => simp [hgs] at h
  | some split =>
  simp only [hgs] at h
  cases hpar : split.parent with
  | none =>
    simp only [hpar] at h
    obtain rfl : st = st' := Except.ok.inj h
    exact ⟨rfl, fun x => rfl⟩
  | some tid =>
  simp only [hpar] at h
  cases hgt : getTrans st tid with
  | none => simp [hgt] at h
  | some tr =>
  simp only [hgt] at h
  by_cases hdef : tr.open_defer = true
  · rw [if_pos hdef] at h
    obtain rfl : st = st' := Except.ok.inj h
    exact ⟨rfl, fun x => rfl⟩
  · rw [if_neg hdef] at h
    cases hrr : rebalResolve st.force_double_entry st.sArena st.accounts
        split tr with
    | error e => simp [hrr] at h
    | ok rg =>
    simp only [hrr] at h
    cases rg with
    | skip =>
      obtain rfl : st = st' := Except.ok.inj h
      exact ⟨rfl, fun x => rfl⟩
    | go base =>
    cases hsp : tr.splits with
    | nil => simp [hsp] at h
    | cons s0 rest =>
    simp only [hsp] at h
    by_cases hss : sid = s0
    · rw [if_pos hss] at h
      cases rest with
      | cons dest drest =>
        cases hcv : ComputeValue st.force_double_entry st.sArena st.accounts
            (s0 :: dest :: drest) dest base with
        | error e => simp [hcv] at h
        | ok value =>
        simp only [hcv] at h
        cases hsb : xaccSplitSetBaseValue st (some dest) (-value) base with
        | error e => simp [hsb] at h
        | ok st1 =>
        simp only [hsb, xaccAccountRecomputeBalance] at h
        obtain rfl : markSplitId st1 dest = st' := Except.ok.inj h
        rcases setBaseValue_ok_shape hsb with rfl | ⟨s, w, hgsd, rfl⟩
        · exact ⟨tArena_markSplitId _ _,
            fun x => by rw [getSplit_markSplitId]⟩
        · refine ⟨?_, ?_⟩
          · rw [tArena_markSplitId]
            rfl
          · intro x
            rw [getSplit_markSplitId]
            by_cases hx : dest = x
            · subst hx
              rw [getSplit_setSplit_self hgsd, hgsd]
              rfl
            · rw [getSplit_setSplit_ne _ hx]
      | nil =>
        by_cases hf : st.force_double_entry = true
        · rw [if_pos hf] at h
          by_cases hd0 : split.damount = 0
          · rw [if_pos hd0] at h
            obtain rfl : st = st' := Except.ok.inj h
            exact ⟨rfl, fun x => rfl⟩
          · rw [if_neg hd0] at h
            simp only [allocSplit] at h
            split at h
            · exact Except.noConfusion h
            · rename_i stC heq
              have hdef2 : tr.open_defer = false := by
                revert hdef
                cases tr.open_defer
                · intro _
                  rfl
                · intro hc
                  exact absurd rfl hc
              have hlt : s0 < st.sArena.length := hss ▸ getSplit_lt hgs
              exact absurd heq
                (autocreate_append_never_ok n hf hgt hdef2 hsp (by rfl)
                  (by rfl) hlt stC)
        · rw [if_neg hf] at h
          obtain rfl : st = st' := Except.ok.inj h
          exact ⟨rfl, fun x => rfl⟩
    · rw [if_neg hss] at h
      cases hcv : ComputeValue st.force_double_entry st.sArena st.accounts
          (s0 :: rest) s0 base with
      | error e => simp [hcv] at h
      | ok value =>
      simp only [hcv] at h
      cases hsb : xaccSplitSetBaseValue st (some s0) (-value) base with
      | error e => simp [hsb] at h
      | ok st1 =>
      simp only [hsb, xaccAccountRecomputeBalance] at h
      obtain rfl : markSplitId st1 s0 = st' := Except.ok.inj h
      rcases setBaseValue_ok_shape hsb with rfl | ⟨s, w, hgs0, rfl⟩
      · exact ⟨tArena_markSplitId _ _,
          fun x => by rw [getSplit_markSplitId]⟩
      · refine ⟨?_, ?_⟩
        · rw [tArena_markSplitId]
          rfl
        · intro x
          rw [getSplit_markSplitId]
          by_cases hx : s0 = x
          · subst hx
            rw [getSplit_setSplit_self hgs0, hgs0]
            rfl
          · rw [getSplit_setSplit_ne _ hx]

/-- A successful `xaccTransRemoveSplit` is exactly the parent-clearing
write followed by the sequence compaction. -/
theorem remove_ok_shape {st st' : State} {tid sid : Nat}
    (h : xaccTransRemoveSplit st (some tid) (some sid) = .ok st') :
    ∃ s t, getSplit st sid = some s ∧ getTrans st tid = some t ∧
      st' = setTrans (setSplit st sid { s with parent := none }) tid
        { t with splits := t.splits.filter (fun x => x ≠ sid) } := by
  unfold xaccTransRemoveSplit at h
  cases hgs : getSplit st sid with
  | none => simp [hgs] at h
  | some s =>
  simp only [hgs] at h
  cases hgt : getTrans (setSplit st sid { s with parent := none }) tid with
  | none => simp [hgt] at h
  | some t =>
  simp only [hgt] at h
  exact ⟨s, t, rfl, hgt, (Except.ok.inj h).symm⟩

/-- Removing a split whose parent pointer names the transaction it is
removed from preserves the invariant, clears the parent pointer, and takes
the split out of the sequence. -/
theorem remove_WF {st st' : State} {tid sid : Nat} {s : Split}
    (hWF : WF st) (hgs : getSplit st sid = some s) (hpar : s.parent = some tid)
    (h : xaccTransRemoveSplit st (some tid) (some sid) = .ok st') :
    WF st' ∧ getSplit st' sid = some { s with parent := none } ∧
      (∀ t', getTrans st' tid = some t' → sid ∉ t'.splits) := by
  obtain ⟨s2, t, hgs2, hgt, rfl⟩ := remove_ok_shape h
  obtain rfl : s = s2 := Option.some.inj (hgs.symm.trans hgs2)
  obtain ⟨w1, w2⟩ := hWF
  have hA : ∀ x, x ≠ sid →
      getSplit (setTrans (setSplit st sid { s with parent := none }) tid
        { t with splits := t.splits.filter (fun y => y ≠ sid) }) x =
      getSplit st x := by
    intro x hx
    rw [getSplit_setTrans, getSplit_setSplit_ne _ (fun he => hx he.symm)]
  have hB : getSplit (setTrans (setSplit st sid { s with parent := none }) tid
      { t with splits := t.splits.filter (fun y => y ≠ sid) }) sid =
      some { s with parent := none } := by
    rw [getSplit_setTrans]
    exact getSplit_setSplit_self hgs _
  have hC : getTrans (setTrans (setSplit st sid { s with parent := none }) tid
      { t with splits := t.splits.filter (fun y => y ≠ sid) }) tid =
      some { t with splits := t.splits.filter (fun y => y ≠ sid) } :=
    getTrans_setTrans_self
      (show getTrans (setSplit st sid { s with parent := none }) tid =
        some t from hgt) _
  have hD : ∀ tid2, tid2 ≠ tid →
      getTrans (setTrans (setSplit st sid { s with parent := none }) tid
        { t with splits := t.splits.filter (fun y => y ≠ sid) }) tid2 =
      getTrans st tid2 := by
    intro tid2 hx
    rw [getTrans_setTrans_ne _ (fun he => hx he.symm), getTrans_setSplit]
  refine ⟨⟨?_, ?_⟩, hB, ?_⟩
  · intro tid2 t2 hgt2 x hxmem
    by_cases h2 : tid2 = tid
    · subst h2
      rw [hC] at hgt2
      obtain rfl := Option.some.inj hgt2
      have hx : x ∈ t.splits ∧ x ≠ sid := by
        simpa using List.mem_filter.mp hxmem
      obtain ⟨s3, hgs3, hp3⟩ := w1 tid2 t hgt x hx.1
      exact ⟨s3, by rw [hA x hx.2]; exact hgs3, hp3⟩
    · rw [hD tid2 h2] at hgt2
      obtain ⟨s3, hgs3, hp3⟩ := w1 tid2 t2 hgt2 x hxmem
      have hxs : x ≠ sid := by
        intro he
        subst he
        rw [hgs] at hgs3
        obtain rfl := Option.some.inj hgs3
        rw [hpar] at hp3
        exact h2 (Option.some.inj hp3).symm
      exact ⟨s3, by rw [hA x hxs]; exact hgs3, hp3⟩
  · intro x sx tidx hgx hpx
    by_cases hxs : x = sid
    · subst hxs
      rw [hB] at hgx
      obtain rfl := Option.some.inj hgx
      exact absurd hpx (by simp)
    · rw [hA x hxs] at hgx
      obtain ⟨t2, hgt2, hm⟩ := w2 x sx tidx hgx hpx
      by_cases h2 : tidx = tid
      · subst h2
        rw [hgt] at hgt2
        obtain rfl := Option.some.inj hgt2
        refine ⟨_, hC, ?_⟩
        rw [List.mem_filter]
        exact ⟨hm, by simp [hxs]⟩
      · exact ⟨t2, by rw [hD tidx h2]; exact hgt2, hm⟩
  · intro t' hgt'
    rw [hC] at hgt'
    obtain rfl := Option.some.inj hgt'
    simp [List.mem_filter]

/-- Setting a parentless live split's parent to `tid` and appending it to
transaction `tid`'s sequence restores the invariant in one step. -/
theorem append_st4_WF {st2 : State} {tid sid : Nat} {split2 : Split}
    {trans3 : Transaction}
    (hWF2 : WF st2)
    (hgs2 : getSplit st2 sid = some split2)
    (hp2 : split2.parent = none)
    (hgt3 : getTrans (setSplit st2 sid { split2 with parent := some tid })
      tid = some trans3) :
    WF (setTrans (setSplit st2 sid { split2 with parent := some tid }) tid
      { trans3 with splits := trans3.splits ++ [sid] }) := by
  obtain ⟨w1, w2⟩ := hWF2
  have htr3 : getTrans st2 tid = some trans3 := hgt3
  have hB : getSplit (setTrans (setSplit st2 sid
      { split2 with parent := some tid }) tid
      { trans3 with splits := trans3.splits ++ [sid] }) sid =
      some { split2 with parent := some tid } := by
    rw [getSplit_setTrans]
    exact getSplit_setSplit_self hgs2 _
  have hA : ∀ x, x ≠ sid → getSplit (setTrans (setSplit st2 sid
      { split2 with parent := some tid }) tid
      { trans3 with splits := trans3.splits ++ [sid] }) x =
      getSplit st2 x := by
    intro x hx
    rw [getSplit_setTrans, getSplit_setSplit_ne _ (fun he => hx he.symm)]
  have hC : getTrans (setTrans (setSplit st2 sid
      { split2 with parent := some tid }) tid
      { trans3 with splits := trans3.splits ++ [sid] }) tid =
      some { trans3 with splits := trans3.splits ++ [sid] } :=
    getTrans_setTrans_self hgt3 _
  have hD : ∀ tid2, tid2 ≠ tid → getTrans (setTrans (setSplit st2 sid
      { split2 with parent := some tid }) tid
      { trans3 with splits := trans3.splits ++ [sid] }) tid2 =
      getTrans st2 tid2 := by
    intro tid2 hx
    rw [getTrans_setTrans_ne _ (fun he => hx he.symm), getTrans_setSplit]
  have hnm : ∀ tid2 t2, getTrans st2 tid2 = some t2 → sid ∉ t2.splits :=
    not_member_of_parent_none ⟨w1, w2⟩ hgs2 hp2
  constructor
  · intro tid2 t2 hgt2 x hx
    by_cases h2 : tid2 = tid
    · subst h2
      rw [hC] at hgt2
      obtain rfl := Option.some.inj hgt2
      rcases List.mem_append.mp hx with hx1 | hx2
      · by_cases hxs : x = sid
        · subst hxs
          exact ⟨{ split2 with parent := some tid2 }, hB, rfl⟩
        · obtain ⟨s3, hgs3, hp3⟩ := w1 tid2 trans3 htr3 x hx1
          exact ⟨s3, by rw [hA x hxs]; exact hgs3, hp3⟩
      · have hxsid : x = sid := by simpa using hx2
        subst hxsid
        exact ⟨{ split2 with parent := some tid2 }, hB, rfl⟩
    · rw [hD tid2 h2] at hgt2
      have hxs : x ≠ sid := fun he => hnm tid2 t2 hgt2 (he ▸ hx)
      obtain ⟨s3, hgs3, hp3⟩ := w1 tid2 t2 hgt2 x hx
      exact ⟨s3, by rw [hA x hxs]; exact hgs3, hp3⟩
  · intro x sx tidx hgx hpx
    by_cases hxs : x = sid
    · subst hxs
      rw [hB] at hgx
      obtain rfl := Option.some.inj hgx
      obtain rfl : tidx = tid := (Option.some.inj hpx).symm
      exact ⟨_, hC, by simp⟩
    · rw [hA x hxs] at hgx
      obtain ⟨t2, hgt2, hm⟩ := w2 x sx tidx hgx hpx
      by_cases h2 : tidx = tid
      · subst h2
        rw [htr3] at hgt2
        obtain rfl := Option.some.inj hgt2
        exact ⟨_, hC, List.mem_append.mpr (Or.inl hm)⟩
      · exact ⟨t2, by rw [hD tidx h2]; exact hgt2, hm⟩

/-- `xaccTransAppendSplit` preserves the parent/membership invariant. -/
theorem append_WF {fuel : Nat} {st st' : State} {tid? sid? : Option Nat}
    (hWF : WF st) (h : xaccTransAppendSplitF fuel st tid? sid? = .ok st') :
    WF st' := by
  match fuel with
  | 0 => exact Except.noConfusion h
  | Nat.succ n =>
  simp only [xaccTransAppendSplitF] at h
  cases tid? with
  | none => exact (Except.ok.inj h) ▸ hWF
  | some tid =>
  cases sid? with
  | none => exact (Except.ok.inj h) ▸ hWF
  | some sid =>
  cases hgt : getTrans st tid with
  | none => simp [hgt] at h
  | some t0 =>
  simp only [hgt] at h
  cases hgs : getSplit st sid with
  | none => simp [hgs] at h
  | some split =>
  simp only [hgs] at h
  cases hpar : split.parent with
  | none =>
    simp only [hpar] at h
    simp only [hgs] at h
    cases hgt3 : getTrans (setSplit st sid { split with parent := some tid })
        tid with
    | none => simp [hgt3] at h
    | some trans3 =>
    simp only [hgt3] at h
    obtain ⟨htA, hpmap⟩ := rebalance_ok_shape h
    exact WF_transfer htA hpmap (append_st4_WF hWF hgs hpar hgt3)
  | some oldtid =>
    simp only [hpar] at h
    cases hrem : xaccTransRemoveSplit st (some oldtid) (some sid) with
    | error e => simp [hrem] at h
    | ok st1 =>
    simp only [hrem] at h
    cases hgto : getTrans st1 oldtid with
    | none => simp [hgto] at h
    | some oldt =>
    simp only [hgto] at h
    cases hreb : xaccSplitRebalanceF n st1 oldt.splits.head? with
    | error e => simp [hreb] at h
    | ok st2 =>
    simp only [hreb] at h
    obtain ⟨hWF1, hs1par, _⟩ := remove_WF hWF hgs hpar hrem
    obtain ⟨htA1, hp1⟩ := rebalance_ok_shape hreb
    have hWF2 : WF st2 := WF_transfer htA1 hp1 hWF1
    cases hgs2 : getSplit st2 sid with
    | none => simp [hgs2] at h
    | some split2 =>
    simp only [hgs2] at h
    have hp2 : split2.parent = none := by
      have hm := hp1 sid
      rw [hgs2, hs1par] at hm
      simpa using hm
    cases hgt3 : getTrans (setSplit st2 sid
        { split2 with parent := some tid }) tid with
    | none => simp [hgt3] at h
    | some trans3 =>
    simp only [hgt3] at h
    obtain ⟨htA, hpmap⟩ := rebalance_ok_shape h
    exact WF_transfer htA hpmap (append_st4_WF hWF2 hgs2 hp2 hgt3)

theorem getSplit_markChanged (st : State) (t : Transaction) (x : Nat) :
    getSplit (markChanged st t) x = getSplit st x := by
  show getSplitA (markChanged st t).sArena x = getSplitA st.sArena x
  unfold markChanged
  rw [sArena_foldl_mark]

theorem tArena_markChanged (st : State) (t : Transaction) :
    (markChanged st t).tArena = st.tArena := by
  unfold markChanged
  exact tArena_foldl_mark _ _

/-- Detaching a split from its account rewrites only the `acc` field. -/
theorem accountRemove_parent_map (st : State) (aid? : Option Nat) (sid : Nat) :
    (xaccAccountRemoveSplit st aid? sid).tArena = st.tArena ∧
    ∀ x, (getSplit (xaccAccountRemoveSplit st aid? sid) x).map Split.parent =
      (getSplit st x).map Split.parent := by
  unfold xaccAccountRemoveSplit
  cases aid? with
  | none => exact ⟨rfl, fun x => rfl⟩
  | some aid =>
    cases hg : getSplit st sid with
    | none => simp [hg]
    | some s =>
      simp only [hg]
      refine ⟨rfl, fun x => ?_⟩
      by_cases hx : sid = x
      · subst hx
        rw [getSplit_setSplit_self hg, hg]
        rfl
      · rw [getSplit_setSplit_ne _ hx]

theorem getSplit_freeSplit_self (st : State) (i : Nat) :
    getSplit (xaccFreeSplit st i) i = none := by
  by_cases hl : i < st.sArena.length
  · simp [getSplit, getSplitA, xaccFreeSplit, List.getElem?_set_eq_of_lt _ hl]
  · have h0 : (st.sArena.set i none)[i]? = none :=
      List.getElem?_eq_none (by simpa using le_of_not_lt hl)
    simp [getSplit, getSplitA, xaccFreeSplit, h0]

theorem getSplit_freeSplit_ne (st : State) {i x : Nat} (h : i ≠ x) :
    getSplit (xaccFreeSplit st i) x = getSplit st x := by
  simp [getSplit, getSplitA, xaccFreeSplit, List.getElem?_set_ne h]

/-- Freeing a split listed by no transaction preserves the invariant. -/
theorem free_WF {st : State} {sid : Nat} (hWF : WF st)
    (hnm : ∀ tid2 t2, getTrans st tid2 = some t2 → sid ∉ t2.splits) :
    WF (xaccFreeSplit st sid) := by
  obtain ⟨w1, w2⟩ := hWF
  have hgt : ∀ tid, getTrans (xaccFreeSplit st sid) tid = getTrans st tid :=
    fun _ => rfl
  constructor
  · intro tid t hgt2 x hx
    rw [hgt] at hgt2
    obtain ⟨s3, hgs3, hp3⟩ := w1 tid t hgt2 x hx
    have hxs : sid ≠ x := fun he => hnm tid t hgt2 (he ▸ hx)
    exact ⟨s3, by rw [getSplit_freeSplit_ne st hxs]; exact hgs3, hp3⟩
  · intro x sx tidx hgx hpx
    by_cases hxs : sid = x
    · subst hxs
      rw [getSplit_freeSplit_self] at hgx
      exact Option.noConfusion hgx
    · rw [getSplit_freeSplit_ne st hxs] at hgx
      obtain ⟨t2, hgt2, hm⟩ := w2 x sx tidx hgx hpx
      exact ⟨t2, by rw [hgt]; exact hgt2, hm⟩

theorem tArena_foldl_free (l : List Nat) (st : State) :
    (l.foldl xaccFreeSplit st).tArena = st.tArena := by
  induction l generalizing st with
  | nil => rfl
  | cons c cs ih =>
    rw [List.foldl_cons, ih]
    rfl

theorem getSplit_foldl_free_not_mem {l : List Nat} {x : Nat} (hx : x ∉ l)
    (st : State) : getSplit (l.foldl xaccFreeSplit st) x = getSplit st x := by
  induction l generalizing st with
  | nil => rfl
  | cons c cs ih =>
    rw [List.foldl_cons, ih (fun h => hx (List.mem_cons.mpr (Or.inr h)))]
    exact getSplit_freeSplit_ne st (fun he => hx (he ▸ List.mem_cons_self c cs))

theorem getSplit_foldl_free_mem {l : List Nat} {x : Nat} (hx : x ∈ l)
    (st : State) : getSplit (l.foldl xaccFreeSplit st) x = none := by
  induction l generalizing st with
  | nil => exact absurd hx (by simp)
  | cons c cs ih =>
    rw [List.foldl_cons]
    by_cases h2 : x ∈ cs
    · exact ih h2 _
    · have hxc : x = c := by
        rcases List.mem_cons.mp hx with h | h
        · exact h
        · exact absurd h h2
      subst hxc
      rw [getSplit_foldl_free_not_mem h2]
      exact getSplit_freeSplit_self st x

/-- Freeing a transaction (which frees all its splits with it) preserves
the invariant. -/
theorem freeTrans_WF {st : State} {tid : Nat} (hWF : WF st) :
    WF (xaccFreeTransaction st tid) := by
  obtain ⟨w1, w2⟩ := hWF
  unfold xaccFreeTransaction
  cases hgt : getTrans st tid with
  | none =>
    simp only [hgt]
    exact ⟨w1, w2⟩
  | some t =>
  simp only [hgt]
  have hT : (t.splits.foldl xaccFreeSplit st).tArena = st.tArena :=
    tArena_foldl_free _ _
  have hgtF : ∀ tid2, tid2 ≠ tid →
      getTransA ((t.splits.foldl xaccFreeSplit st).tArena.set tid none)
        tid2 = getTrans st tid2 := by
    intro tid2 hne
    rw [hT]
    simp [getTrans, getTransA, List.getElem?_set_ne (Ne.symm hne)]
  have hgtFt : getTransA
      ((t.splits.foldl xaccFreeSplit st).tArena.set tid none) tid = none := by
    rw [hT]
    by_cases hl : tid < st.tArena.length
    · simp [getTransA, List.getElem?_set_eq_of_lt _ hl]
    · have h0 : (st.tArena.set tid none)[tid]? = none :=
        List.getElem?_eq_none (by simpa using le_of_not_lt hl)
      simp [getTransA, h0]
  constructor
  · intro tid2 t2 hgt2 x hx
    have hgt2' : getTransA
        ((t.splits.foldl xaccFreeSplit st).tArena.set tid none) tid2 =
        some t2 := hgt2
    by_cases h2 : tid2 = tid
    · rw [h2, hgtFt] at hgt2'
      exact Option.noConfusion hgt2'
    · rw [hgtF tid2 h2] at hgt2'
      obtain ⟨s3, hgs3, hp3⟩ := w1 tid2 t2 hgt2' x hx
      have hxmem : x ∉ t.splits := by
        intro hmem
        obtain ⟨s4, hgs4, hp4⟩ := w1 tid t hgt x hmem
        rw [hgs3] at hgs4
        obtain rfl := Option.some.inj hgs4
        rw [hp3] at hp4
        exact h2 (Option.some.inj hp4)
      refine ⟨s3, ?_, hp3⟩
      show getSplit (t.splits.foldl xaccFreeSplit st) x = some s3
      rw [getSplit_foldl_free_not_mem hxmem]
      exact hgs3
  · intro x sx tidx hgx hpx
    have hxmem : x ∉ t.splits := by
      intro hmem
      have h0 : getSplit (t.splits.foldl xaccFreeSplit st) x = none :=
        getSplit_foldl_free_mem hmem st
      have hgx2 : getSplit (t.splits.foldl xaccFreeSplit st) x = some sx := hgx
      rw [h0] at hgx2
      exact Option.noConfusion hgx2
    have hgx' : getSplit st x = some sx := by
      rw [← getSplit_foldl_free_not_mem hxmem st]
      exact hgx
    obtain ⟨t2, hgt2, hm⟩ := w2 x sx tidx hgx' hpx
    have htidx : tidx ≠ tid := by
      intro he
      rw [he, hgt] at hgt2
      obtain rfl := Option.some.inj hgt2
      exact hxmem hm
    refine ⟨t2, ?_, hm⟩
    show getTransA ((t.splits.foldl xaccFreeSplit st).tArena.set tid none)
      tidx = some t2
    rw [hgtF tidx htidx]
    exact hgt2

/-- `xaccSplitDestroy` preserves the parent/membership invariant in all
three shapes: unlink-and-rebalance (more than two splits), lone-split
detach, and two-split transaction teardown. -/
theorem destroy_WF {st st' : State} {sid : Nat} (hWF : WF st)
    (h : xaccSplitDestroy st (some sid) = .ok st') : WF st' := by
  unfold xaccSplitDestroy at h
  cases hgs : getSplit st sid with
  | none => simp [hgs] at h
  | some split =>
  simp only [hgs] at h
  cases hpar : split.parent with
  | none => simp [hpar] at h
  | some tid =>
  simp only [hpar] at h
  cases hgt : getTrans st tid with
  | none => simp [hgt] at h
  | some tr =>
  simp only [hgt] at h
  have hWF0 : WF (markChanged st tr) :=
    WF_transfer (tArena_markChanged st tr)
      (fun x => by rw [getSplit_markChanged]) hWF
  by_cases hmem : sid ∈ tr.splits
  · rw [if_pos hmem] at h
    by_cases hlen : 2 < tr.splits.length
    · rw [if_pos hlen] at h
      have hWF1 : WF (markSplitId (markChanged st tr) sid) :=
        WF_transfer (tArena_markSplitId _ _)
          (fun x => by rw [getSplit_markSplitId]) hWF0
      cases hrem : xaccTransRemoveSplit (markSplitId (markChanged st tr) sid)
          (some tid) (some sid) with
      | error e => simp [hrem] at h
      | ok st2 =>
      simp only [hrem, xaccAccountRecomputeBalance] at h
      have hgs1 : getSplit (markSplitId (markChanged st tr) sid) sid =
          some split := by
        rw [getSplit_markSplitId, getSplit_markChanged]
        exact hgs
      obtain ⟨hWF2, hs2par, _⟩ := remove_WF hWF1 hgs1 hpar hrem
      obtain ⟨htA3, hp3⟩ := accountRemove_parent_map st2 split.acc sid
      have hWF3 : WF (xaccAccountRemoveSplit st2 split.acc sid) :=
        WF_transfer htA3 hp3 hWF2
      have hs3par : ∃ s3, getSplit (xaccAccountRemoveSplit st2 split.acc sid)
          sid = some s3 ∧ s3.parent = none := by
        have hm := hp3 sid
        rw [hs2par] at hm
        obtain ⟨s3, hg3, hp3n⟩ := map_parent_eq_some hm
        exact ⟨s3, hg3, hp3n⟩
      obtain ⟨s3, hgs3, hp3n⟩ := hs3par
      have hnm := not_member_of_parent_none hWF3 hgs3 hp3n
      have hWF5 : WF (xaccFreeSplit (xaccAccountRemoveSplit st2 split.acc sid)
          sid) := free_WF hWF3 hnm
      cases hgt5 : getTrans (xaccFreeSplit
          (xaccAccountRemoveSplit st2 split.acc sid) sid) tid with
      | none => simp [hgt5] at h
      | some t5 =>
      simp only [hgt5] at h
      obtain ⟨htA, hpm⟩ := rebalance_ok_shape h
      exact WF_transfer htA hpm hWF5
    · rw [if_neg hlen] at h
      cases hh : tr.splits.head? with
      | none => simp [hh] at h
      | some f0 =>
      simp only [hh] at h
      have hWFL : WF (xaccTransWriteLog (markChanged st tr) tid 'D') :=
        WF_transfer
          (show (markChanged st tr).tArena = st.tArena from
            tArena_markChanged st tr)
          (fun x => by
            show (getSplit (markChanged st tr) x).map Split.parent =
              (getSplit st x).map Split.parent
            rw [getSplit_markChanged]) hWF
      cases hgf0 : getSplit (xaccTransWriteLog (markChanged st tr) tid 'D')
          f0 with
      | none => simp [hgf0] at h
      | some sA =>
      simp only [hgf0, xaccAccountRecomputeBalance] at h
      have hWFm : WF (markSplit (xaccTransWriteLog (markChanged st tr) tid 'D')
          sA) :=
        WF_transfer (tArena_markSplit _ _)
          (fun x => by rw [getSplit_markSplit]) hWFL
      obtain ⟨htA1, hp1m⟩ := accountRemove_parent_map
        (markSplit (xaccTransWriteLog (markChanged st tr) tid 'D') sA)
        sA.acc f0
      have hWF1 : WF (xaccAccountRemoveSplit
          (markSplit (xaccTransWriteLog (markChanged st tr) tid 'D') sA)
          sA.acc f0) :=
        WF_transfer htA1 hp1m hWFm
      cases hg1 : tr.splits.get? 1 with
      | none =>
        simp only [hg1] at h
        obtain rfl := Except.ok.inj h
        exact hWF1
      | some f1 =>
      simp only [hg1] at h
      cases hgf1 : getSplit (xaccAccountRemoveSplit
          (markSplit (xaccTransWriteLog (markChanged st tr) tid 'D') sA)
          sA.acc f0) f1 with
      | none => simp [hgf1] at h
      | some sB =>
      simp only [hgf1] at h
      have hWFm2 : WF (markSplit (xaccAccountRemoveSplit
          (markSplit (xaccTransWriteLog (markChanged st tr) tid 'D') sA)
          sA.acc f0) sB) :=
        WF_transfer (tArena_markSplit _ _)
          (fun x => by rw [getSplit_markSplit]) hWF1
      obtain ⟨htA2, hp2m⟩ := accountRemove_parent_map
        (markSplit (xaccAccountRemoveSplit
          (markSplit (xaccTransWriteLog (markChanged st tr) tid 'D') sA)
          sA.acc f0) sB) sB.acc f1
      have hWF3 : WF (xaccAccountRemoveSplit
          (markSplit (xaccAccountRemoveSplit
            (markSplit (xaccTransWriteLog (markChanged st tr) tid 'D') sA)
            sA.acc f0) sB) sB.acc f1) :=
        WF_transfer htA2 hp2m hWFm2
      obtain rfl := Except.ok.inj h
      exact freeTrans_WF hWF3
  · rw [if_neg hmem] at h
    exact Except.noConfusion h

/-- C4: provided the parent/membership invariant holds, every completed
public sequence mutation preserves it — `xaccTransAppendSplit` (including
its internal remove and rebalances; the rebalancer's auto-created split
never survives a completed call, since its append aborts under enforcement
and is not attempted otherwise), `xaccTransRemoveSplit` (which additionally
clears the removed split's parent reference and takes it out of the
sequence), and `xaccSplitDestroy` in all its shapes. -/
theorem c4_parent_backref_invariant {st : State} (hWF : WF st) :
    (∀ tid sid st', xaccTransAppendSplit st (some tid) (some sid) = .ok st' →
      WF st') ∧
    (∀ tid sid s st', getSplit st sid = some s → s.parent = some tid →
      xaccTransRemoveSplit st (some tid) (some sid) = .ok st' →
      WF st' ∧ getSplit st' sid = some { s with parent := none } ∧
        ∀ t', getTrans st' tid = some t' → sid ∉ t'.splits) ∧
    (∀ sid st', xaccSplitDestroy st (some sid) = .ok st' → WF st') := by
  refine ⟨?_, ?_, ?_⟩
  · intro tid sid st' h
    exact append_WF hWF h
  · intro tid sid s st' hgs hpar h
    exact remove_WF hWF hgs hpar h
  · intro sid st' h
    exact destroy_WF hWF h

/-- The C4 witness fixture: a two-split transaction with correct
back-references, from which split 1 is removed. -/
def s0W4 : Split := { xaccInitSplit with parent := some 0 }

def s1W4 : Split := { xaccInitSplit with parent := some 0 }

def tW4 : Transaction :=
  { num := [], description := [], docref := [], splits := [0, 1],
    date_entered := ⟨0, 0⟩, date_posted := ⟨0, 0⟩,
    open_begin := true, open_defer := false }

def stW4 : State :=
  { sArena := [some s0W4, some s1W4], tArena := [some tW4], accounts := [],
    force_double_entry := false, changed := [], log := [] }

/-- The state `xaccTransRemoveSplit` produces on the C4 fixture. -/
def stW4r : State :=
  { sArena := [some s0W4, some { s1W4 with parent := none }],
    tArena := [some { tW4 with splits := [0] }], accounts := [],
    force_double_entry := false, changed := [], log := [] }

/-- C4 witness: on the concrete fixture the invariant survives the removal,
the removed split's parent is cleared, and it is gone from the sequence. -/
theorem c4_parent_backref_invariant_witness :
    WF stW4r ∧ getSplit stW4r 1 = some { s1W4 with parent := none } ∧
      (1 : Nat) ∉ ({ tW4 with splits := [0] } : Transaction).splits :=
  (fun H => ⟨H.1, H.2.1, H.2.2 { tW4 with splits := [0] } rfl⟩)
    ((c4_parent_backref_invariant
        (show WF stW4 from WF_of_WFb (by decide))).2.1
      0 1 s1W4 stW4r rfl rfl (by with_unfolding_all rfl))
